import Mathlib

/-!
Verification of the Telegram News Reader ingestion and synchronization
engine against its specification.  The backend engine (reconciliation,
persistence, retention, scheduling) is shallowly embedded below; the
management frontend's add-channel / add-group handlers are embedded from
`frontend/src/components/ChannelManager.tsx`.
-/

namespace NewsReader

/-- Modelled from the spec: persisted state layout, relation
`Item(id, channel_id, external_message_id, body, attachment_ref, origin_timestamp)`
(the backend persistence code is not in the source tree; only the schema in
`CLOUDFLARE_MIGRATION_ANALYSIS.md` and the spec describe it). -/
structure Item where
  id : Nat
  channel_id : Nat
  external_message_id : Nat
  body : Option String
  attachment_ref : Option String
  origin_timestamp : Nat
deriving DecidableEq, Repr

/-- Modelled from the spec: relation
`Channel(id, name, group_id nullable, last_synced nullable timestamp)`. -/
structure Channel where
  id : Nat
  name : String
  group_id : Option Nat
  last_synced : Option Nat
deriving DecidableEq, Repr

/-- Modelled from the spec: a raw external message as normalized at the
Source Client Adapter boundary (tagged text/media variant flattened into a
media flag). -/
structure RawMsg where
  external_id : Nat
  body : Option String
  has_media : Bool
  origin_timestamp : Nat
deriving DecidableEq, Repr

/-- Modelled from the spec: the durable state visible to the engine —
channel rows, item rows, and the set of Attachment Store objects
(referenced by their stable relative names). -/
structure DB where
  channels : List Channel
  items : List Item
  files : List String
deriving DecidableEq, Repr

/-- Modelled from the spec: a never-synchronized channel is created with a
null `last_synced` timestamp. -/
def mkChannel (id : Nat) (name : String) (group_id : Option Nat) : Channel :=
  { id := id, name := name, group_id := group_id, last_synced := none }

/-- Modelled from the spec: `itemExists(channelId, externalMessageId)` —
the dedup-key membership test against persisted Items. -/
def itemExists (items : List Item) (cid mid : Nat) : Bool :=
  items.any (fun it => it.channel_id == cid && it.external_message_id == mid)

/-- The external message identities of one channel's persisted Items. -/
def chanIds (items : List Item) (cid : Nat) : List Nat :=
  (items.filter (fun it => it.channel_id == cid)).map (fun it => it.external_message_id)

/-- Maximum of a list of naturals, `none` on the empty list. -/
def listMax : List Nat → Option Nat
  | [] => none
  | n :: ns =>
    match listMax ns with
    | none => some n
    | some m => some (max n m)

/-- Maximum of two optional naturals, treating `none` as bottom. -/
def optMax : Option Nat → Option Nat → Option Nat
  | none, y => y
  | some a, none => some a
  | some a, some b => some (max a b)

/-- Modelled from the spec: the per-channel watermark — derived, not
persisted: max(external message identity) over that channel's Items, or
`none` ("beginning of history") if no Items exist. -/
def watermark (items : List Item) (cid : Nat) : Option Nat :=
  listMax (chanIds items cid)

/-- `afterWatermark w n` holds when external identity `n` is strictly above
the watermark `w`; a `none` watermark (beginning of history) admits all. -/
def afterWatermark (w : Option Nat) (n : Nat) : Bool :=
  match w with
  | none => true
  | some m => decide (m < n)

/-- Modelled from the spec: `fetchSince(channelRef, watermark)` over an
unchanged upstream stream — the raw messages with external identity
strictly greater than the watermark, oldest-to-newest within the page. -/
def fetchSince (upstream : List RawMsg) (w : Option Nat) : List RawMsg :=
  upstream.filter (fun m => afterWatermark w m.external_id)

/-- Modelled from the spec: the Attachment Store's deterministic object
name derived from `(channelRef, externalMessageId)`. -/
def attachmentName (cid mid : Nat) : String :=
  toString cid ++ "_" ++ toString mid

/-- Modelled from the spec: ingestion of one fetched raw message — if the
(channel, external message identity) pair is already present the message is
skipped; otherwise the Item row is appended (with its attachment saved to
the store when the message carries media). -/
def ingestMsg (db : DB) (cid : Nat) (m : RawMsg) : DB :=
  if itemExists db.items cid m.external_id then db
  else
    let ref : Option String := if m.has_media then some (attachmentName cid m.external_id) else none
    let newFiles : List String := if m.has_media then db.files ++ [attachmentName cid m.external_id] else db.files
    { db with
      items := db.items ++ [{ id := db.items.length,
                              channel_id := cid,
                              external_message_id := m.external_id,
                              body := m.body,
                              attachment_ref := ref,
                              origin_timestamp := m.origin_timestamp }],
      files := newFiles }

/-- Modelled from the spec: one channel's fetched page is committed in
list order (ascending external identity within a page), one Item at a
time. -/
def ingestPage (db : DB) (cid : Nat) (ms : List RawMsg) : DB :=
  ms.foldl (fun d m => ingestMsg d cid m) db

/-- Uniqueness of the dedup key (channel_id, external_message_id) across a
list of Items, as a decidable boolean predicate. -/
def uniqueKeys : List Item → Bool
  | [] => true
  | it :: rest => (!itemExists rest it.channel_id it.external_message_id) && uniqueKeys rest

/-- Modelled from the spec: the outcome of one `fetchSince` attempt at the
Source Client Adapter — either a page of raw messages or one of the errors
of the taxonomy in §7. -/
inductive FetchOutcome where
  | ok (msgs : List RawMsg)
  | authError
  | unreachable
  | rateLimited
deriving DecidableEq, Repr

/-- The behavior of the external source during one sweep: channel id,
current watermark and attempt number determine each fetch attempt's
outcome. -/
def Source : Type :=
  Nat → Option Nat → Nat → FetchOutcome

/-- Modelled from the spec: an unchanged upstream stream per channel,
presented through `fetchSince`: every attempt succeeds with the messages
above the watermark. -/
def sourceOfUpstream (up : Nat → List RawMsg) : Source :=
  fun cid w _ => FetchOutcome.ok (fetchSince (up cid) w)

/-- Modelled from the spec: on `RateLimitedError`, back off and retry the
channel up to a bounded number of extra attempts; any other outcome is
final.  Exhausting the retry budget leaves `rateLimited` as the (failed)
result. -/
def fetchWithRetry (attempts : Nat → FetchOutcome) : Nat → Nat → FetchOutcome
  | i, 0 => attempts i
  | i, k + 1 =>
    match attempts i with
    | FetchOutcome.rateLimited => fetchWithRetry attempts (i + 1) k
    | r => r

/-- Modelled from the spec: the per-channel entry of the sweep's outcome
record (success count, skipped/duplicate count, failed flag). -/
structure ChannelOutcome where
  cid : Nat
  inserted : Nat
  skipped : Nat
  failed : Bool
deriving DecidableEq, Repr

/-- Modelled from the spec: the result of one `reconcile` call — the
resulting persisted state, the per-channel outcome record, whether the
sweep was aborted by `AuthenticationError`, and the log of per-channel
last-successful-sync writes performed during the sweep. -/
structure SweepResult where
  db : DB
  outcomes : List ChannelOutcome
  aborted : Bool
  syncWrites : List Nat
deriving Repr

/-- Modelled from the spec: write a channel's last-successful-sync
timestamp. -/
def setLastSynced (db : DB) (cid : Nat) (now : Nat) : DB :=
  { db with
    channels := db.channels.map
      (fun c => if c.id == cid then { c with last_synced := some now } else c) }

/-- The last-successful-sync timestamp of channel `cid` as persisted in
`db` (the first matching row). -/
def lastSyncedOf (db : DB) (cid : Nat) : Option Nat :=
  match db.channels.find? (fun c => c.id == cid) with
  | none => none
  | some c => c.last_synced

/-- Modelled from the spec: processing of a single channel inside
`reconcile`: compute the watermark, fetch with bounded rate-limit retries,
commit the page in order, and on completion (even with zero new items)
write last-successful-sync exactly once.  Returns the new state, the
channel's outcome, whether the sweep must abort (`AuthenticationError`),
and the sync-write log of this channel. -/
def reconcileChannel (src : Source) (maxRetries now : Nat) (db : DB) (cid : Nat) :
    DB × ChannelOutcome × Bool × List Nat :=
  match fetchWithRetry (src cid (watermark db.items cid)) 0 maxRetries with
  | FetchOutcome.ok msgs =>
    let db1 := ingestPage db cid msgs
    let ins := db1.items.length - db.items.length
    (setLastSynced db1 cid now,
      { cid := cid, inserted := ins, skipped := msgs.length - ins, failed := false },
      false, [cid])
  | FetchOutcome.authError =>
    (db, { cid := cid, inserted := 0, skipped := 0, failed := true }, true, [])
  | _ =>
    (db, { cid := cid, inserted := 0, skipped := 0, failed := true }, false, [])

/-- Modelled from the spec: `reconcile(scope)` — each channel in scope is
processed independently in order; `AuthenticationError` aborts the whole
call (remaining channels are skipped), per-channel failures are recorded
and do not abort sibling channels. -/
def reconcile (src : Source) (maxRetries now : Nat) (db : DB) : List Nat → SweepResult
  | [] => { db := db, outcomes := [], aborted := false, syncWrites := [] }
  | cid :: rest =>
    let r := reconcileChannel src maxRetries now db cid
    if r.2.2.1 then
      { db := r.1, outcomes := [r.2.1], aborted := true, syncWrites := r.2.2.2 }
    else
      let s := reconcile src maxRetries now r.1 rest
      { db := s.db, outcomes := r.2.1 :: s.outcomes, aborted := s.aborted,
        syncWrites := r.2.2.2 ++ s.syncWrites }

/-- A sequence of sweeps: each entry supplies the source behavior, the
retry budget, the sweep timestamp and the scope of one `reconcile` call. -/
def runSweeps (db : DB) : List (Source × Nat × Nat × List Nat) → DB
  | [] => db
  | (src, mr, now, scope) :: rest => runSweeps (reconcile src mr now db scope).db rest

/-- The number of Items of `it`'s channel whose origin timestamp is
strictly greater than `it`'s — `it`'s recency rank within its channel. -/
def countNewer (items : List Item) (it : Item) : Nat :=
  (items.filter (fun j =>
    j.channel_id == it.channel_id && decide (it.origin_timestamp < j.origin_timestamp))).length

/-- Modelled from the spec: the Items selected for deletion by the
retention policy "keep only the `n` most recent per channel". -/
def pruneSelect (items : List Item) (n : Nat) : List Item :=
  items.filter (fun it => decide (n ≤ countNewer items it))

/-- Modelled from the spec: `deleteItemsOlderThan(cutoff)` — removes the
Items whose origin timestamp is strictly below the cutoff and returns the
set of attachment references removed, so the caller can instruct the
Attachment Store to delete the corresponding files. -/
def deleteItemsOlderThan (db : DB) (cutoff : Nat) : DB × List String :=
  ({ db with items := db.items.filter (fun it => !decide (it.origin_timestamp < cutoff)) },
    (db.items.filter (fun it => decide (it.origin_timestamp < cutoff))).filterMap
      (fun it => it.attachment_ref))

/-- A single micro-step of `prune`: deleting one Item row, or deleting one
Attachment Store object. -/
inductive PruneOp where
  | delRow (it : Item)
  | delFile (ref : String)
deriving DecidableEq, Repr

/-- Effect of one `prune` micro-step on the persisted state. -/
def applyOp (db : DB) : PruneOp → DB
  | PruneOp.delRow it => { db with items := db.items.filter (fun j => !(j == it)) }
  | PruneOp.delFile r => { db with files := db.files.filter (fun f => !(f == r)) }

/-- Modelled from the spec: `prune(keep n per channel)` as its sequence of
micro-steps — first every selected Item row is deleted, and only after all
row deletions the corresponding Attachment Store objects are deleted
(row-then-file ordering). -/
def pruneOps (db : DB) (n : Nat) : List PruneOp :=
  (pruneSelect db.items n).map PruneOp.delRow ++
    ((pruneSelect db.items n).filterMap (fun it => it.attachment_ref)).map PruneOp.delFile

/-- Run a list of `prune` micro-steps. -/
def runOps (db : DB) : List PruneOp → DB
  | [] => db
  | op :: rest => runOps (applyOp db op) rest

/-- Modelled from the spec: `prune(keep n per channel)` — the state after
all of its micro-steps. -/
def prune (db : DB) (n : Nat) : DB :=
  runOps db (pruneOps db n)

/-- Every state `prune` passes through, the initial one included. -/
def statesAlong (db : DB) : List PruneOp → List DB
  | [] => [db]
  | op :: rest => db :: statesAlong (applyOp db op) rest

/-- No persisted Item's attachment reference points to a missing
Attachment Store object. -/
def noDangling (db : DB) : Bool :=
  db.items.all (fun it =>
    match it.attachment_ref with
    | none => true
    | some r => db.files.contains r)

/-- Two Items clash when both carry the same attachment reference. -/
def refClash (i j : Item) : Bool :=
  match i.attachment_ref, j.attachment_ref with
  | some r, some s => r == s
  | _, _ => false

/-- No two distinct Items share an attachment reference (guaranteed by the
deterministic naming invariant of the Attachment Store). -/
def distinctRefs : List Item → Bool
  | [] => true
  | it :: rest => rest.all (fun j => !refClash it j) && distinctRefs rest

/-- Descending comparison on origin timestamps. -/
def tsGE (a b : Item) : Bool :=
  decide (b.origin_timestamp ≤ a.origin_timestamp)

/-- Insert an Item into a list sorted by origin timestamp descending. -/
def insertDesc (it : Item) : List Item → List Item
  | [] => [it]
  | j :: rest => if tsGE it j then it :: j :: rest else j :: insertDesc it rest

/-- Sort Items by origin timestamp descending. -/
def sortDesc : List Item → List Item
  | [] => []
  | it :: rest => insertDesc it (sortDesc rest)

/-- The Group the Item's owning Channel belongs to, if any. -/
def channelGroup (db : DB) (cid : Nat) : Option Nat :=
  match db.channels.find? (fun c => c.id == cid) with
  | none => none
  | some c => c.group_id

/-- Modelled from the spec: `listItems(filter: groupId?, limit?, orderBy:
originTimestamp desc)` — the read surface: filter by group, sort by origin
timestamp descending at read time, then truncate. -/
def listItems (db : DB) (gid : Option Nat) (lim : Option Nat) : List Item :=
  let base :=
    match gid with
    | none => db.items
    | some g => db.items.filter (fun it => channelGroup db it.channel_id == some g)
  match lim with
  | none => sortDesc base
  | some k => (sortDesc base).take k

/-- Modelled from the spec: a sweep request arriving at the Scheduler — a
periodic tick or a manual trigger — or the completion of the in-flight
sweep, or a stop request. -/
inductive SchedEvent where
  | tick
  | trigger
  | finish
  | stop
deriving DecidableEq, Repr

/-- Modelled from the spec: the Scheduler's global mutable state — the
sweep-in-progress flag, a pending coalesced/queued request, the stop flag,
and (as instrumentation) the number of reconciliation passes currently in
flight. -/
structure Sched where
  running : Bool
  queued : Bool
  stopped : Bool
  active : Nat
deriving DecidableEq, Repr

/-- Modelled from the spec: the Scheduler's transition function — a sweep
request while one is in flight is queued (coalesced) rather than starting
a second pass; a finished sweep starts the queued request, if any; `stop`
halts future ticks but lets the in-flight sweep finish. -/
def schedStep (s : Sched) : SchedEvent → Sched
  | SchedEvent.tick =>
    if s.stopped then s
    else if s.running then { s with queued := true }
    else { s with running := true, active := s.active + 1 }
  | SchedEvent.trigger =>
    if s.running then { s with queued := true }
    else { s with running := true, active := s.active + 1 }
  | SchedEvent.finish =>
    if s.running then
      if s.queued && !s.stopped then
        { s with queued := false, active := s.active - 1 + 1 }
      else
        { s with running := false, queued := false, active := s.active - 1 }
    else s
  | SchedEvent.stop => { s with stopped := true }

/-- The Scheduler's initial state: idle, nothing queued, not stopped. -/
def schedInit : Sched :=
  { running := false, queued := false, stopped := false, active := 0 }

/-- Run the Scheduler over a sequence of events. -/
def schedRun (evs : List SchedEvent) : Sched :=
  evs.foldl schedStep schedInit

/-- A create request issued by the management frontend to the backend
API. -/
structure CreateRequest where
  endpoint : String
  name : String
deriving DecidableEq, Repr

/-- The management frontend's view: the channel and group name lists. -/
structure MgmtState where
  channelNames : List String
  groupNames : List String
deriving DecidableEq, Repr

/-- `handleAddChannel` from `ChannelManager.tsx`: an empty name short
circuits (`if (!newChannel) return`); otherwise a POST /channels request is
issued and the channel list refreshed. Returns the new view and the
requests issued. -/
def handleAddChannel (newChannel : String) (st : MgmtState) : MgmtState × List CreateRequest :=
  if newChannel = "" then (st, [])
  else
    ({ st with channelNames := st.channelNames ++ [newChannel] },
      [{ endpoint := "/channels", name := newChannel }])

/-- `handleAddGroup` from `ChannelManager.tsx`: an empty name short
circuits (`if (!newGroup) return`); otherwise a POST /groups request is
issued and the group list refreshed. -/
def handleAddGroup (newGroup : String) (st : MgmtState) : MgmtState × List CreateRequest :=
  if newGroup = "" then (st, [])
  else
    ({ st with groupNames := st.groupNames ++ [newGroup] },
      [{ endpoint := "/groups", name := newGroup }])

/-- A raw message fixture. -/
def rawMsg (i ts : Nat) (media : Bool) : RawMsg :=
  { external_id := i, body := none, has_media := media, origin_timestamp := ts }

/-- An Item fixture. -/
def mkItem (id cid mid ts : Nat) (ref : Option String) : Item :=
  { id := id, channel_id := cid, external_message_id := mid, body := none,
    attachment_ref := ref, origin_timestamp := ts }

/-- The empty persisted state. -/
def dbEmpty : DB := { channels := [], items := [], files := [] }

/-- A retention fixture: one channel holding Items at external ids
[1,2,3,4] with increasing origin timestamps, each with an attachment. -/
def dbRetention : DB :=
  { channels := [],
    items := [mkItem 1 1 1 10 (some "r1"), mkItem 2 1 2 20 (some "r2"),
              mkItem 3 1 3 30 (some "r3"), mkItem 4 1 4 40 (some "r4")],
    files := ["r1", "r2", "r3", "r4"] }

/-- `saturated items up cid` — every upstream message of channel `cid`
lying above the channel's current watermark is already persisted.  After a
sweep over an unchanged upstream this holds and makes a second sweep a
no-op. -/
def saturated (items : List Item) (up : List RawMsg) (cid : Nat) : Prop :=
  ∀ m ∈ up, afterWatermark (watermark items cid) m.external_id = true →
    itemExists items cid m.external_id = true

/-! ### Basic lemmas about the dedup key -/

theorem itemExists_append (l1 l2 : List Item) (cid mid : Nat) :
    itemExists (l1 ++ l2) cid mid = (itemExists l1 cid mid || itemExists l2 cid mid) := by
  simp [itemExists, List.any_append]

theorem itemExists_iff (l : List Item) (c m : Nat) :
    itemExists l c m = true ↔ ∃ it, it ∈ l ∧ it.channel_id = c ∧ it.external_message_id = m := by
  simp [itemExists, List.any_eq_true, Bool.and_eq_true, beq_iff_eq]

theorem uniqueKeys_append_one (items : List Item) (it : Item)
    (h1 : uniqueKeys items = true)
    (h2 : itemExists items it.channel_id it.external_message_id = false) :
    uniqueKeys (items ++ [it]) = true := by
  induction items with
  | nil => simp [uniqueKeys, itemExists]
  | cons it0 rest ih =>
    simp only [uniqueKeys, Bool.and_eq_true, Bool.not_eq_true'] at h1
    simp only [itemExists, List.any_cons, Bool.or_eq_false_iff] at h2
    have hgoal : uniqueKeys (it0 :: (rest ++ [it])) = true := by
      simp only [uniqueKeys, Bool.and_eq_true, Bool.not_eq_true']
      constructor
      · rw [itemExists_append, Bool.or_eq_false_iff]
        refine ⟨h1.1, ?_⟩
        simp only [itemExists, List.any_cons, List.any_nil, Bool.or_false]
        have h21 := h2.1
        simp only [Bool.and_eq_false_iff, beq_eq_false_iff_ne, ne_eq] at h21 ⊢
        omega
      · exact ih h1.2 (by simpa [itemExists] using h2.2)
    exact hgoal

theorem ingestMsg_items (db : DB) (cid : Nat) (m : RawMsg) :
    (ingestMsg db cid m).items = db.items ∨
      ∃ it : Item, (ingestMsg db cid m).items = db.items ++ [it] ∧
        it.channel_id = cid ∧ it.external_message_id = m.external_id ∧
        itemExists db.items cid m.external_id = false := by
  by_cases h : itemExists db.items cid m.external_id = true
  · left; simp [ingestMsg, h]
  · right
    have hf : itemExists db.items cid m.external_id = false := by
      simpa using h
    refine ⟨{ id := db.items.length, channel_id := cid, external_message_id := m.external_id,
              body := m.body,
              attachment_ref := if m.has_media then some (attachmentName cid m.external_id) else none,
              origin_timestamp := m.origin_timestamp }, ?_, rfl, rfl, hf⟩
    simp [ingestMsg, hf]

theorem ingestMsg_of_present (db : DB) (cid : Nat) (m : RawMsg)
    (h : itemExists db.items cid m.external_id = true) :
    ingestMsg db cid m = db := by
  simp [ingestMsg, h]

theorem uniqueKeys_ingestMsg (db : DB) (cid : Nat) (m : RawMsg)
    (h : uniqueKeys db.items = true) :
    uniqueKeys (ingestMsg db cid m).items = true := by
  rcases ingestMsg_items db cid m with he | ⟨it, he, hc, hm, habs⟩
  · rw [he]; exact h
  · rw [he]
    exact uniqueKeys_append_one db.items it h (by rw [hc, hm]; exact habs)

theorem uniqueKeys_ingestPage (db : DB) (cid : Nat) (ms : List RawMsg)
    (h : uniqueKeys db.items = true) :
    uniqueKeys (ingestPage db cid ms).items = true := by
  induction ms generalizing db with
  | nil => exact h
  | cons m rest ih =>
    exact ih (ingestMsg db cid m) (uniqueKeys_ingestMsg db cid m h)

theorem setLastSynced_items (db : DB) (cid now : Nat) :
    (setLastSynced db cid now).items = db.items := rfl

theorem uniqueKeys_reconcileChannel (src : Source) (mr now : Nat) (db : DB) (cid : Nat)
    (h : uniqueKeys db.items = true) :
    uniqueKeys (reconcileChannel src mr now db cid).1.items = true := by
  unfold reconcileChannel
  cases fetchWithRetry (src cid (watermark db.items cid)) 0 mr with
  | ok msgs =>
    simpa [setLastSynced_items] using uniqueKeys_ingestPage db cid msgs h
  | authError => exact h
  | unreachable => exact h
  | rateLimited => exact h

theorem uniqueKeys_reconcile (src : Source) (mr now : Nat) (db : DB) (scope : List Nat)
    (h : uniqueKeys db.items = true) :
    uniqueKeys (reconcile src mr now db scope).db.items = true := by
  induction scope generalizing db with
  | nil => exact h
  | cons cid rest ih =>
    have hstep := uniqueKeys_reconcileChannel src mr now db cid h
    unfold reconcile
    by_cases hab : (reconcileChannel src mr now db cid).2.2.1 = true
    · rw [if_pos hab]
      exact hstep
    · rw [if_neg hab]
      exact ih _ hstep

theorem uniqueKeys_runSweeps (db : DB) (sweeps : List (Source × Nat × Nat × List Nat))
    (h : uniqueKeys db.items = true) :
    uniqueKeys (runSweeps db sweeps).items = true := by
  induction sweeps generalizing db with
  | nil => exact h
  | cons sw rest ih =>
    obtain ⟨src, mr, now, scope⟩ := sw
    exact ih _ (uniqueKeys_reconcile src mr now db scope h)

/-- C1: for every reachable persisted state, the pair
(Item.channel_id, Item.external_message_id) is unique across all Items
after any sequence of sweeps — including sweeps whose fetched message
ranges overlap — and the engine treats re-observing an already-present
pair as a no-op. -/
theorem dedup_pair_unique_after_sweeps (db : DB)
    (sweeps : List (Source × Nat × Nat × List Nat))
    (h : uniqueKeys db.items = true) :
    uniqueKeys (runSweeps db sweeps).items = true ∧
      ∀ (d : DB) (cid : Nat) (m : RawMsg),
        itemExists d.items cid m.external_id = true → ingestMsg d cid m = d :=
  ⟨uniqueKeys_runSweeps db sweeps h,
    fun d cid m hp => ingestMsg_of_present d cid m hp⟩

/-- Witness for C1: two overlapping sweeps over the same upstream keep the
dedup key unique, and re-ingesting a present message is a no-op. -/
theorem dedup_pair_unique_after_sweeps_witness :
    uniqueKeys (runSweeps dbEmpty
        [(sourceOfUpstream fun _ => [rawMsg 1 10 false, rawMsg 2 20 true], 0, 5, [1, 1]),
         (sourceOfUpstream fun _ => [rawMsg 1 10 false, rawMsg 2 20 true, rawMsg 3 30 false], 0, 6, [1])]).items
      = true ∧
    ingestMsg { channels := [], items := [mkItem 0 1 7 10 none], files := [] } 1 (rawMsg 7 10 false)
      = { channels := [], items := [mkItem 0 1 7 10 none], files := [] } :=
  ⟨(dedup_pair_unique_after_sweeps dbEmpty
      [(sourceOfUpstream fun _ => [rawMsg 1 10 false, rawMsg 2 20 true], 0, 5, [1, 1]),
       (sourceOfUpstream fun _ => [rawMsg 1 10 false, rawMsg 2 20 true, rawMsg 3 30 false], 0, 6, [1])]
      (by decide)).1,
    (dedup_pair_unique_after_sweeps dbEmpty [] (by decide)).2
      { channels := [], items := [mkItem 0 1 7 10 none], files := [] } 1 (rawMsg 7 10 false)
      (by decide)⟩

/-! ### Items only grow during ingestion; watermark and dedup monotonicity -/

theorem ingestMsg_items_append (db : DB) (cid : Nat) (m : RawMsg) :
    ∃ extra, (ingestMsg db cid m).items = db.items ++ extra := by
  rcases ingestMsg_items db cid m with he | ⟨it, he, _, _, _⟩
  · exact ⟨[], by simp [he]⟩
  · exact ⟨[it], he⟩

theorem ingestPage_items_append (db : DB) (cid : Nat) (ms : List RawMsg) :
    ∃ extra, (ingestPage db cid ms).items = db.items ++ extra := by
  induction ms generalizing db with
  | nil => exact ⟨[], by simp [ingestPage]⟩
  | cons m rest ih =>
    obtain ⟨e1, he1⟩ := ingestMsg_items_append db cid m
    obtain ⟨e2, he2⟩ := ih (ingestMsg db cid m)
    exact ⟨e1 ++ e2, by simp [ingestPage] at he2 ⊢; rw [he2, he1, List.append_assoc]⟩

theorem chanIds_append (l1 l2 : List Item) (cid : Nat) :
    chanIds (l1 ++ l2) cid = chanIds l1 cid ++ chanIds l2 cid := by
  simp [chanIds, List.filter_append]

theorem listMax_cons (n : Nat) (ns : List Nat) :
    listMax (n :: ns) = optMax (some n) (listMax ns) := by
  cases h : listMax ns <;> simp [listMax, optMax, h]

theorem optMax_assoc (a b c : Option Nat) :
    optMax (optMax a b) c = optMax a (optMax b c) := by
  cases a <;> cases b <;> cases c <;> simp [optMax, Nat.max_assoc]

theorem listMax_append (xs ys : List Nat) :
    listMax (xs ++ ys) = optMax (listMax xs) (listMax ys) := by
  induction xs with
  | nil => simp [listMax, optMax]
  | cons x xs ih =>
    rw [List.cons_append, listMax_cons, ih, ← optMax_assoc, ← listMax_cons]

theorem afterWatermark_optMax (u v : Option Nat) (n : Nat)
    (h : afterWatermark (optMax u v) n = true) : afterWatermark u n = true := by
  cases u with
  | none => rfl
  | some a =>
    cases v with
    | none => exact h
    | some b =>
      simp only [optMax, afterWatermark, decide_eq_true_eq] at h ⊢
      omega

theorem afterWatermark_append (items extra : List Item) (cid n : Nat)
    (h : afterWatermark (watermark (items ++ extra) cid) n = true) :
    afterWatermark (watermark items cid) n = true := by
  apply afterWatermark_optMax (watermark items cid) (listMax (chanIds extra cid))
  rwa [watermark, chanIds_append, listMax_append] at h

theorem itemExists_append_left (l1 l2 : List Item) (c m : Nat)
    (h : itemExists l1 c m = true) : itemExists (l1 ++ l2) c m = true := by
  rw [itemExists_append, h, Bool.true_or]

theorem itemExists_ingestMsg_self (db : DB) (cid : Nat) (m : RawMsg) :
    itemExists (ingestMsg db cid m).items cid m.external_id = true := by
  by_cases h : itemExists db.items cid m.external_id = true
  · rw [ingestMsg_of_present db cid m h]
    exact h
  · have hf : itemExists db.items cid m.external_id = false := by simpa using h
    have he : (ingestMsg db cid m).items = db.items ++
        [{ id := db.items.length, channel_id := cid, external_message_id := m.external_id,
           body := m.body,
           attachment_ref := if m.has_media then some (attachmentName cid m.external_id) else none,
           origin_timestamp := m.origin_timestamp }] := by
      simp [ingestMsg, hf]
    rw [he, itemExists_append]
    simp [itemExists]

theorem itemExists_ingestMsg_mono (db : DB) (cid c n : Nat) (m : RawMsg)
    (h : itemExists db.items c n = true) :
    itemExists (ingestMsg db cid m).items c n = true := by
  obtain ⟨extra, he⟩ := ingestMsg_items_append db cid m
  rw [he]
  exact itemExists_append_left _ _ _ _ h

theorem itemExists_ingestPage_mono (db : DB) (cid c n : Nat) (ms : List RawMsg)
    (h : itemExists db.items c n = true) :
    itemExists (ingestPage db cid ms).items c n = true := by
  obtain ⟨extra, he⟩ := ingestPage_items_append db cid ms
  rw [he]
  exact itemExists_append_left _ _ _ _ h

theorem itemExists_ingestPage_mem (db : DB) (cid : Nat) (ms : List RawMsg) (m : RawMsg)
    (hm : m ∈ ms) :
    itemExists (ingestPage db cid ms).items cid m.external_id = true := by
  induction ms generalizing db with
  | nil => cases hm
  | cons m0 rest ih =>
    rcases List.mem_cons.mp hm with rfl | hm'
    · exact itemExists_ingestPage_mono (ingestMsg db cid m) cid cid m.external_id rest
        (itemExists_ingestMsg_self db cid m)
    · exact ih (ingestMsg db cid m0) hm'

theorem ingestPage_of_all_present (db : DB) (cid : Nat) (ms : List RawMsg)
    (h : ∀ m ∈ ms, itemExists db.items cid m.external_id = true) :
    ingestPage db cid ms = db := by
  induction ms with
  | nil => rfl
  | cons m rest ih =>
    have hm := h m (List.mem_cons_self m rest)
    have : ingestMsg db cid m = db := ingestMsg_of_present db cid m hm
    show ingestPage (ingestMsg db cid m) cid rest = db
    rw [this]
    exact ih fun m' hm' => h m' (List.mem_cons_of_mem m hm')

theorem fetchWithRetry_const_ok (up : Nat → List RawMsg) (cid : Nat) (w : Option Nat)
    (i k : Nat) :
    fetchWithRetry (sourceOfUpstream up cid w) i k =
      FetchOutcome.ok (fetchSince (up cid) w) := by
  cases k with
  | zero => rfl
  | succ k => rfl

/-! ### Saturation: a sweep over an unchanged upstream makes a rescan a no-op -/

theorem saturated_append (items extra : List Item) (up : List RawMsg) (cid : Nat)
    (h : saturated items up cid) : saturated (items ++ extra) up cid := by
  intro m hm hw
  have hw' : afterWatermark (watermark items cid) m.external_id = true :=
    afterWatermark_append items extra cid m.external_id hw
  exact itemExists_append_left _ _ _ _ (h m hm hw')

theorem reconcileChannel_upstream_eq (up : Nat → List RawMsg) (mr now : Nat) (db : DB)
    (cid : Nat) :
    reconcileChannel (sourceOfUpstream up) mr now db cid =
      (setLastSynced (ingestPage db cid (fetchSince (up cid) (watermark db.items cid))) cid now,
        { cid := cid,
          inserted := (ingestPage db cid (fetchSince (up cid) (watermark db.items cid))).items.length - db.items.length,
          skipped := (fetchSince (up cid) (watermark db.items cid)).length -
            ((ingestPage db cid (fetchSince (up cid) (watermark db.items cid))).items.length - db.items.length),
          failed := false },
        false, [cid]) := by
  unfold reconcileChannel
  rw [fetchWithRetry_const_ok]

theorem saturated_reconcileChannel (up : Nat → List RawMsg) (mr now : Nat) (db : DB)
    (cid : Nat) :
    saturated (reconcileChannel (sourceOfUpstream up) mr now db cid).1.items (up cid) cid := by
  rw [reconcileChannel_upstream_eq]
  simp only [setLastSynced_items]
  intro m hm hw
  obtain ⟨extra, he⟩ := ingestPage_items_append db cid (fetchSince (up cid) (watermark db.items cid))
  have hw0 : afterWatermark (watermark db.items cid) m.external_id = true := by
    rw [he] at hw
    exact afterWatermark_append db.items extra cid m.external_id hw
  have hmem : m ∈ fetchSince (up cid) (watermark db.items cid) := by
    rw [fetchSince, List.mem_filter]
    exact ⟨hm, hw0⟩
  exact itemExists_ingestPage_mem db cid _ m hmem

theorem saturated_ingest_noop (up : Nat → List RawMsg) (db : DB) (cid : Nat)
    (h : saturated db.items (up cid) cid) :
    ingestPage db cid (fetchSince (up cid) (watermark db.items cid)) = db := by
  apply ingestPage_of_all_present
  intro m hm
  rw [fetchSince, List.mem_filter] at hm
  exact h m hm.1 hm.2

theorem reconcileChannel_items_append (src : Source) (mr now : Nat) (db : DB) (cid : Nat) :
    ∃ extra, (reconcileChannel src mr now db cid).1.items = db.items ++ extra := by
  unfold reconcileChannel
  cases fetchWithRetry (src cid (watermark db.items cid)) 0 mr with
  | ok msgs =>
    obtain ⟨extra, he⟩ := ingestPage_items_append db cid msgs
    exact ⟨extra, by simpa [setLastSynced_items] using he⟩
  | authError => exact ⟨[], by simp⟩
  | unreachable => exact ⟨[], by simp⟩
  | rateLimited => exact ⟨[], by simp⟩

theorem reconcile_items_append (src : Source) (mr now : Nat) (db : DB) (scope : List Nat) :
    ∃ extra, (reconcile src mr now db scope).db.items = db.items ++ extra := by
  induction scope generalizing db with
  | nil => exact ⟨[], by simp [reconcile]⟩
  | cons cid rest ih =>
    obtain ⟨e1, he1⟩ := reconcileChannel_items_append src mr now db cid
    unfold reconcile
    by_cases hab : (reconcileChannel src mr now db cid).2.2.1 = true
    · rw [if_pos hab]
      exact ⟨e1, he1⟩
    · rw [if_neg hab]
      obtain ⟨e2, he2⟩ := ih (reconcileChannel src mr now db cid).1
      exact ⟨e1 ++ e2, by
        show (reconcile src mr now (reconcileChannel src mr now db cid).1 rest).db.items = _
        rw [he2, he1, List.append_assoc]⟩

theorem reconcileChannel_upstream_no_abort (up : Nat → List RawMsg) (mr now : Nat)
    (db : DB) (cid : Nat) :
    (reconcileChannel (sourceOfUpstream up) mr now db cid).2.2.1 = false := by
  rw [reconcileChannel_upstream_eq]

theorem reconcile_cons (src : Source) (mr now : Nat) (db : DB) (cid : Nat) (rest : List Nat)
    (h : (reconcileChannel src mr now db cid).2.2.1 = false) :
    reconcile src mr now db (cid :: rest) =
      { db := (reconcile src mr now (reconcileChannel src mr now db cid).1 rest).db,
        outcomes := (reconcileChannel src mr now db cid).2.1 ::
          (reconcile src mr now (reconcileChannel src mr now db cid).1 rest).outcomes,
        aborted := (reconcile src mr now (reconcileChannel src mr now db cid).1 rest).aborted,
        syncWrites := (reconcileChannel src mr now db cid).2.2.2 ++
          (reconcile src mr now (reconcileChannel src mr now db cid).1 rest).syncWrites } := by
  simp only [reconcile]
  rw [if_neg (by rw [h]; simp)]

theorem reconcile_cons_abort (src : Source) (mr now : Nat) (db : DB) (cid : Nat)
    (rest : List Nat) (h : (reconcileChannel src mr now db cid).2.2.1 = true) :
    reconcile src mr now db (cid :: rest) =
      { db := (reconcileChannel src mr now db cid).1,
        outcomes := [(reconcileChannel src mr now db cid).2.1],
        aborted := true,
        syncWrites := (reconcileChannel src mr now db cid).2.2.2 } := by
  simp only [reconcile]
  rw [if_pos h]

theorem reconcile_saturates (up : Nat → List RawMsg) (mr now : Nat) (db : DB)
    (scope : List Nat) :
    ∀ c ∈ scope,
      saturated (reconcile (sourceOfUpstream up) mr now db scope).db.items (up c) c := by
  induction scope generalizing db with
  | nil => intro c hc; cases hc
  | cons cid rest ih =>
    intro c hc
    have heq :
        (reconcile (sourceOfUpstream up) mr now db (cid :: rest)).db =
          (reconcile (sourceOfUpstream up) mr now
            (reconcileChannel (sourceOfUpstream up) mr now db cid).1 rest).db := by
      rw [reconcile_cons _ _ _ _ _ _ (reconcileChannel_upstream_no_abort up mr now db cid)]
    rcases List.mem_cons.mp hc with rfl | hc'
    · rw [heq]
      obtain ⟨extra, he⟩ := reconcile_items_append (sourceOfUpstream up) mr now
        (reconcileChannel (sourceOfUpstream up) mr now db c).1 rest
      rw [he]
      exact saturated_append _ extra (up c) c (saturated_reconcileChannel up mr now db c)
    · rw [heq]
      exact ih _ c hc'

theorem reconcile_noop_of_saturated (up : Nat → List RawMsg) (mr now : Nat) (db : DB)
    (scope : List Nat) (h : ∀ c ∈ scope, saturated db.items (up c) c) :
    (reconcile (sourceOfUpstream up) mr now db scope).db.items = db.items ∧
      ∀ oc ∈ (reconcile (sourceOfUpstream up) mr now db scope).outcomes, oc.inserted = 0 := by
  induction scope generalizing db with
  | nil => exact ⟨rfl, by intro oc hoc; cases hoc⟩
  | cons cid rest ih =>
    have hsat := h cid (List.mem_cons_self cid rest)
    have hnoop : ingestPage db cid (fetchSince (up cid) (watermark db.items cid)) = db :=
      saturated_ingest_noop up db cid hsat
    have hstepitems : (reconcileChannel (sourceOfUpstream up) mr now db cid).1.items = db.items := by
      rw [reconcileChannel_upstream_eq]
      simp only [setLastSynced_items]
      rw [hnoop]
    have hins : (reconcileChannel (sourceOfUpstream up) mr now db cid).2.1.inserted = 0 := by
      rw [reconcileChannel_upstream_eq]
      simp only []
      rw [hnoop]
      simp
    have hrest : ∀ c ∈ rest,
        saturated (reconcileChannel (sourceOfUpstream up) mr now db cid).1.items (up c) c := by
      intro c hc
      rw [hstepitems]
      exact h c (List.mem_cons_of_mem cid hc)
    obtain ⟨hdb, hocs⟩ := ih _ hrest
    rw [reconcile_cons _ _ _ _ _ _ (reconcileChannel_upstream_no_abort up mr now db cid)]
    constructor
    · show (reconcile (sourceOfUpstream up) mr now
          (reconcileChannel (sourceOfUpstream up) mr now db cid).1 rest).db.items = db.items
      rw [hdb, hstepitems]
    · intro oc hoc
      simp only [List.mem_cons] at hoc
      rcases hoc with rfl | hoc'
      · exact hins
      · exact hocs oc hoc'

/-- C2: for every channel scope, running `reconcile` twice in a row over an
unchanged upstream stream leaves the persisted Items unchanged on the
second run, and every channel outcome of the second run reports zero
inserted Items: reconcile is idempotent on the set of persisted Items. -/
theorem reconcile_idempotent_unchanged_upstream (up : Nat → List RawMsg)
    (mr now now' : Nat) (db : DB) (scope : List Nat) :
    (reconcile (sourceOfUpstream up) mr now'
        (reconcile (sourceOfUpstream up) mr now db scope).db scope).db.items =
      (reconcile (sourceOfUpstream up) mr now db scope).db.items ∧
      ∀ oc ∈ (reconcile (sourceOfUpstream up) mr now'
          (reconcile (sourceOfUpstream up) mr now db scope).db scope).outcomes,
        oc.inserted = 0 :=
  reconcile_noop_of_saturated up mr now'
    (reconcile (sourceOfUpstream up) mr now db scope).db scope
    (fun c hc => reconcile_saturates up mr now db scope c hc)

/-- Witness for C2: a concrete double sweep over an unchanged upstream of
two messages — the second sweep leaves the items unchanged, and its single
channel outcome reports zero inserted Items. -/
theorem reconcile_idempotent_unchanged_upstream_witness :
    (reconcile (sourceOfUpstream fun _ => [rawMsg 1 10 false, rawMsg 2 20 true]) 2 7
        (reconcile (sourceOfUpstream fun _ => [rawMsg 1 10 false, rawMsg 2 20 true]) 2 6
          dbEmpty [1]).db [1]).db.items =
      (reconcile (sourceOfUpstream fun _ => [rawMsg 1 10 false, rawMsg 2 20 true]) 2 6
        dbEmpty [1]).db.items ∧
    (ChannelOutcome.mk 1 0 0 false).inserted = 0 :=
  ⟨(reconcile_idempotent_unchanged_upstream (fun _ => [rawMsg 1 10 false, rawMsg 2 20 true])
      2 6 7 dbEmpty [1]).1,
    (reconcile_idempotent_unchanged_upstream (fun _ => [rawMsg 1 10 false, rawMsg 2 20 true])
      2 6 7 dbEmpty [1]).2 (ChannelOutcome.mk 1 0 0 false) (by decide)⟩

/-! ### Watermark resume after a mid-page interruption -/

theorem listMax_mem_le (n : Nat) (ns : List Nat) (h : n ∈ ns) :
    ∃ m, listMax ns = some m ∧ n ≤ m := by
  induction ns with
  | nil => cases h
  | cons x xs ih =>
    rw [listMax_cons]
    rcases List.mem_cons.mp h with rfl | h'
    · cases hx : listMax xs with
      | none => exact ⟨n, rfl, le_refl n⟩
      | some m => exact ⟨max n m, rfl, Nat.le_max_left n m⟩
    · obtain ⟨m, hm, hle⟩ := ih h'
      rw [hm]
      exact ⟨max x m, rfl, le_trans hle (Nat.le_max_right x m)⟩

theorem ingestMsg_items_absent (db : DB) (cid : Nat) (m : RawMsg)
    (h : itemExists db.items cid m.external_id = false) :
    (ingestMsg db cid m).items = db.items ++
      [{ id := db.items.length, channel_id := cid, external_message_id := m.external_id,
         body := m.body,
         attachment_ref := if m.has_media then some (attachmentName cid m.external_id) else none,
         origin_timestamp := m.origin_timestamp }] := by
  simp [ingestMsg, h]

theorem mem_chanIds_of_itemExists (items : List Item) (c n : Nat)
    (h : itemExists items c n = true) : n ∈ chanIds items c := by
  obtain ⟨it, hmem, hc, hn⟩ := (itemExists_iff items c n).mp h
  rw [chanIds]
  apply List.mem_map.mpr
  refine ⟨it, List.mem_filter.mpr ⟨hmem, by simp [hc]⟩, hn⟩

theorem itemExists_false_of_watermark (items : List Item) (c n w : Nat)
    (hw : watermark items c = some w) (hn : w < n) :
    itemExists items c n = false := by
  by_contra h
  have h' : itemExists items c n = true := by
    cases he : itemExists items c n with
    | false => exact absurd he h
    | true => rfl
  obtain ⟨m, hm, hle⟩ := listMax_mem_le n (chanIds items c) (mem_chanIds_of_itemExists items c n h')
  rw [watermark] at hw
  rw [hw] at hm
  cases hm
  omega

/-- C3: the watermark used by `reconcile` is max(external message
identity) over the channel's persisted Items (beginning of history when
none exist); if a page [5,6,7] fetched at watermark 4 is interrupted after
committing message 6 — pages are committed in ascending order, so the
committed part is the prefix [5,6] — the recomputed watermark is 6, and
the next fetch over the same upstream resumes with exactly message 7. -/
theorem watermark_resumes_after_interruption (db : DB) (cid : Nat) (m5 m6 m7 : RawMsg)
    (hw : watermark db.items cid = some 4)
    (h5 : m5.external_id = 5) (h6 : m6.external_id = 6) (h7 : m7.external_id = 7) :
    watermark (ingestPage db cid [m5, m6]).items cid = some 6 ∧
      fetchSince [m5, m6, m7] (watermark (ingestPage db cid [m5, m6]).items cid) = [m7] := by
  have hex5 : itemExists db.items cid m5.external_id = false := by
    rw [h5]; exact itemExists_false_of_watermark db.items cid 5 4 hw (by omega)
  have it5eq : (ingestMsg db cid m5).items = db.items ++
      [{ id := db.items.length, channel_id := cid, external_message_id := m5.external_id,
         body := m5.body,
         attachment_ref := if m5.has_media then some (attachmentName cid m5.external_id) else none,
         origin_timestamp := m5.origin_timestamp }] :=
    ingestMsg_items_absent db cid m5 hex5
  have hex6 : itemExists (ingestMsg db cid m5).items cid m6.external_id = false := by
    rw [it5eq, itemExists_append]
    have h1 : itemExists db.items cid m6.external_id = false := by
      rw [h6]; exact itemExists_false_of_watermark db.items cid 6 4 hw (by omega)
    rw [h1]
    simp [itemExists, h5, h6]
  have it6eq : (ingestPage db cid [m5, m6]).items = (ingestMsg db cid m5).items ++
      [{ id := (ingestMsg db cid m5).items.length, channel_id := cid,
         external_message_id := m6.external_id, body := m6.body,
         attachment_ref := if m6.has_media then some (attachmentName cid m6.external_id) else none,
         origin_timestamp := m6.origin_timestamp }] :=
    ingestMsg_items_absent (ingestMsg db cid m5) cid m6 hex6
  have hwm : watermark (ingestPage db cid [m5, m6]).items cid = some 6 := by
    rw [it6eq, it5eq, watermark, List.append_assoc, chanIds_append, listMax_append]
    rw [watermark] at hw
    rw [hw]
    simp [chanIds, listMax, optMax, h5, h6]
  refine ⟨hwm, ?_⟩
  rw [hwm]
  simp [fetchSince, afterWatermark, h5, h6, h7]

/-- Witness for C3: a concrete channel at watermark 4, page [5,6,7]
interrupted after message 6. -/
theorem watermark_resumes_after_interruption_witness :
    watermark (ingestPage { channels := [], items := [mkItem 0 1 4 40 none], files := [] } 1
        [rawMsg 5 50 false, rawMsg 6 60 false]).items 1 = some 6 ∧
      fetchSince [rawMsg 5 50 false, rawMsg 6 60 false, rawMsg 7 70 false]
        (watermark (ingestPage { channels := [], items := [mkItem 0 1 4 40 none], files := [] } 1
          [rawMsg 5 50 false, rawMsg 6 60 false]).items 1) = [rawMsg 7 70 false] :=
  watermark_resumes_after_interruption
    { channels := [], items := [mkItem 0 1 4 40 none], files := [] } 1
    (rawMsg 5 50 false) (rawMsg 6 60 false) (rawMsg 7 70 false)
    (by decide) rfl rfl rfl

/-! ### Per-channel error isolation and sweep-fatal abort -/

theorem reconcileChannel_auth (src : Source) (mr now : Nat) (db : DB) (cid : Nat)
    (h : fetchWithRetry (src cid (watermark db.items cid)) 0 mr = FetchOutcome.authError) :
    reconcileChannel src mr now db cid =
      (db, { cid := cid, inserted := 0, skipped := 0, failed := true }, true, []) := by
  unfold reconcileChannel
  rw [h]

theorem reconcileChannel_unreachable (src : Source) (mr now : Nat) (db : DB) (cid : Nat)
    (h : fetchWithRetry (src cid (watermark db.items cid)) 0 mr = FetchOutcome.unreachable) :
    reconcileChannel src mr now db cid =
      (db, { cid := cid, inserted := 0, skipped := 0, failed := true }, false, []) := by
  unfold reconcileChannel
  rw [h]

theorem reconcileChannel_rateLimited (src : Source) (mr now : Nat) (db : DB) (cid : Nat)
    (h : fetchWithRetry (src cid (watermark db.items cid)) 0 mr = FetchOutcome.rateLimited) :
    reconcileChannel src mr now db cid =
      (db, { cid := cid, inserted := 0, skipped := 0, failed := true }, false, []) := by
  unfold reconcileChannel
  rw [h]

theorem reconcile_append_no_abort (src : Source) (mr now : Nat) (db : DB)
    (xs ys : List Nat) (h : (reconcile src mr now db xs).aborted = false) :
    reconcile src mr now db (xs ++ ys) =
      { db := (reconcile src mr now (reconcile src mr now db xs).db ys).db,
        outcomes := (reconcile src mr now db xs).outcomes ++
          (reconcile src mr now (reconcile src mr now db xs).db ys).outcomes,
        aborted := (reconcile src mr now (reconcile src mr now db xs).db ys).aborted,
        syncWrites := (reconcile src mr now db xs).syncWrites ++
          (reconcile src mr now (reconcile src mr now db xs).db ys).syncWrites } := by
  induction xs generalizing db with
  | nil => simp [reconcile]
  | cons cid rest ih =>
    by_cases hab : (reconcileChannel src mr now db cid).2.2.1 = true
    · rw [reconcile_cons_abort src mr now db cid rest hab] at h
      simp at h
    · have hf : (reconcileChannel src mr now db cid).2.2.1 = false := by
        cases hx : (reconcileChannel src mr now db cid).2.2.1
        · rfl
        · exact absurd hx hab
      rw [reconcile_cons src mr now db cid rest hf] at h
      simp only at h
      rw [List.cons_append, reconcile_cons src mr now db cid (rest ++ ys) hf,
        reconcile_cons src mr now db cid rest hf, ih _ h]
      simp

/-- C4: in a sweep over `pre ++ c :: post` where the prefix does not
abort — if fetching channel `c` ends in `AuthenticationError`, the whole
`reconcile` call aborts, `post` is skipped and the state is exactly the
prefix state; if it ends in `ChannelUnreachableError` or exhausts the
bounded rate-limit retries, only `c` is marked failed and the remaining
channels are processed as if `c` had not been in scope. -/
theorem sweep_abort_vs_skip (src : Source) (mr now : Nat) (db : DB)
    (pre post : List Nat) (c : Nat)
    (hpre : (reconcile src mr now db pre).aborted = false) :
    (fetchWithRetry (src c (watermark (reconcile src mr now db pre).db.items c)) 0 mr =
        FetchOutcome.authError →
      (reconcile src mr now db (pre ++ c :: post)).aborted = true ∧
      (reconcile src mr now db (pre ++ c :: post)).db = (reconcile src mr now db pre).db ∧
      (reconcile src mr now db (pre ++ c :: post)).outcomes =
        (reconcile src mr now db pre).outcomes ++
          [{ cid := c, inserted := 0, skipped := 0, failed := true }]) ∧
    (fetchWithRetry (src c (watermark (reconcile src mr now db pre).db.items c)) 0 mr =
          FetchOutcome.unreachable ∨
        fetchWithRetry (src c (watermark (reconcile src mr now db pre).db.items c)) 0 mr =
          FetchOutcome.rateLimited →
      (reconcile src mr now db (pre ++ c :: post)).db =
        (reconcile src mr now (reconcile src mr now db pre).db post).db ∧
      (reconcile src mr now db (pre ++ c :: post)).outcomes =
        (reconcile src mr now db pre).outcomes ++
          { cid := c, inserted := 0, skipped := 0, failed := true } ::
            (reconcile src mr now (reconcile src mr now db pre).db post).outcomes ∧
      (reconcile src mr now db (pre ++ c :: post)).aborted =
        (reconcile src mr now (reconcile src mr now db pre).db post).aborted) := by
  constructor
  · intro hauth
    have hstep := reconcileChannel_auth src mr now (reconcile src mr now db pre).db c hauth
    rw [reconcile_append_no_abort src mr now db pre (c :: post) hpre]
    rw [reconcile_cons_abort src mr now _ c post (by rw [hstep])]
    rw [hstep]
    simp
  · intro hskip
    have hstep : reconcileChannel src mr now (reconcile src mr now db pre).db c =
        ((reconcile src mr now db pre).db,
          { cid := c, inserted := 0, skipped := 0, failed := true }, false, []) := by
      rcases hskip with h | h
      · exact reconcileChannel_unreachable src mr now _ c h
      · exact reconcileChannel_rateLimited src mr now _ c h
    rw [reconcile_append_no_abort src mr now db pre (c :: post) hpre]
    rw [reconcile_cons src mr now _ c post (by rw [hstep])]
    rw [hstep]
    simp

/-- Witness for C4: with channels [1] before and [3] after, a source whose
channel 2 raises `AuthenticationError` aborts after channel 1, while a
source whose channel 2 raises `ChannelUnreachableError` marks channel 2
failed and still processes channel 3. -/
theorem sweep_abort_vs_skip_witness :
    ((reconcile (fun cid _ _ => if cid = 2 then FetchOutcome.authError else FetchOutcome.ok [])
        0 9 dbEmpty ([1] ++ 2 :: [3])).aborted = true ∧
      (reconcile (fun cid _ _ => if cid = 2 then FetchOutcome.authError else FetchOutcome.ok [])
        0 9 dbEmpty ([1] ++ 2 :: [3])).db =
        (reconcile (fun cid _ _ => if cid = 2 then FetchOutcome.authError else FetchOutcome.ok [])
          0 9 dbEmpty [1]).db ∧
      (reconcile (fun cid _ _ => if cid = 2 then FetchOutcome.authError else FetchOutcome.ok [])
        0 9 dbEmpty ([1] ++ 2 :: [3])).outcomes =
        (reconcile (fun cid _ _ => if cid = 2 then FetchOutcome.authError else FetchOutcome.ok [])
          0 9 dbEmpty [1]).outcomes ++
          [{ cid := 2, inserted := 0, skipped := 0, failed := true }]) ∧
    ((reconcile (fun cid _ _ => if cid = 2 then FetchOutcome.unreachable else FetchOutcome.ok [])
        0 9 dbEmpty ([1] ++ 2 :: [3])).db =
        (reconcile (fun cid _ _ => if cid = 2 then FetchOutcome.unreachable else FetchOutcome.ok [])
          0 9
          (reconcile (fun cid _ _ => if cid = 2 then FetchOutcome.unreachable else FetchOutcome.ok [])
            0 9 dbEmpty [1]).db [3]).db ∧
      (reconcile (fun cid _ _ => if cid = 2 then FetchOutcome.unreachable else FetchOutcome.ok [])
        0 9 dbEmpty ([1] ++ 2 :: [3])).outcomes =
        (reconcile (fun cid _ _ => if cid = 2 then FetchOutcome.unreachable else FetchOutcome.ok [])
          0 9 dbEmpty [1]).outcomes ++
          { cid := 2, inserted := 0, skipped := 0, failed := true } ::
            (reconcile (fun cid _ _ => if cid = 2 then FetchOutcome.unreachable else FetchOutcome.ok [])
              0 9
              (reconcile (fun cid _ _ => if cid = 2 then FetchOutcome.unreachable else FetchOutcome.ok [])
                0 9 dbEmpty [1]).db [3]).outcomes ∧
      (reconcile (fun cid _ _ => if cid = 2 then FetchOutcome.unreachable else FetchOutcome.ok [])
        0 9 dbEmpty ([1] ++ 2 :: [3])).aborted =
        (reconcile (fun cid _ _ => if cid = 2 then FetchOutcome.unreachable else FetchOutcome.ok [])
          0 9
          (reconcile (fun cid _ _ => if cid = 2 then FetchOutcome.unreachable else FetchOutcome.ok [])
            0 9 dbEmpty [1]).db [3]).aborted) :=
  ⟨(sweep_abort_vs_skip
      (fun cid _ _ => if cid = 2 then FetchOutcome.authError else FetchOutcome.ok [])
      0 9 dbEmpty [1] [3] 2 (by decide)).1 (by decide),
    (sweep_abort_vs_skip
      (fun cid _ _ => if cid = 2 then FetchOutcome.unreachable else FetchOutcome.ok [])
      0 9 dbEmpty [1] [3] 2 (by decide)).2 (Or.inl (by decide))⟩

/-! ### last-successful-sync write policy -/

theorem ingestMsg_channels (db : DB) (cid : Nat) (m : RawMsg) :
    (ingestMsg db cid m).channels = db.channels := by
  unfold ingestMsg
  by_cases h : itemExists db.items cid m.external_id = true
  · rw [if_pos h]
  · rw [if_neg h]

theorem ingestPage_channels (db : DB) (cid : Nat) (ms : List RawMsg) :
    (ingestPage db cid ms).channels = db.channels := by
  induction ms generalizing db with
  | nil => rfl
  | cons m rest ih =>
    show (ingestPage (ingestMsg db cid m) cid rest).channels = db.channels
    rw [ih, ingestMsg_channels]

theorem setLastSynced_exists_id (db : DB) (cid now c : Nat)
    (h : ∃ ch ∈ db.channels, ch.id = c) :
    ∃ ch ∈ (setLastSynced db cid now).channels, ch.id = c := by
  obtain ⟨ch, hm, hid⟩ := h
  by_cases hc : ch.id == cid
  · exact ⟨{ ch with last_synced := some now },
      List.mem_map.mpr ⟨ch, hm, by simp [hc]⟩, hid⟩
  · exact ⟨ch, List.mem_map.mpr ⟨ch, hm, by simp [hc]⟩, hid⟩

theorem find_updated_self (chs : List Channel) (cid now : Nat)
    (h : ∃ ch ∈ chs, ch.id = cid) :
    ∃ ch', (chs.map (fun ch => if ch.id == cid then { ch with last_synced := some now } else ch)).find?
        (fun ch => ch.id == cid) = some ch' ∧ ch'.last_synced = some now := by
  induction chs with
  | nil => obtain ⟨ch, hm, _⟩ := h; cases hm
  | cons ch rest ih =>
    by_cases hc : ch.id = cid
    · refine ⟨{ ch with last_synced := some now }, ?_, rfl⟩
      rw [List.map_cons, if_pos (by simp [hc])]
      exact List.find?_cons_of_pos _ (by simp [hc])
    · have h' : ∃ ch0 ∈ rest, ch0.id = cid := by
        obtain ⟨ch0, hm, hid⟩ := h
        rcases List.mem_cons.mp hm with rfl | hm'
        · exact absurd hid hc
        · exact ⟨ch0, hm', hid⟩
      obtain ⟨ch', hf, hl⟩ := ih h'
      refine ⟨ch', ?_, hl⟩
      rw [List.map_cons, if_neg (by simp [hc]), List.find?_cons_of_neg _ (by simp [hc])]
      exact hf

theorem find_updated_other (chs : List Channel) (cid now c : Nat) (h : c ≠ cid) :
    (chs.map (fun ch => if ch.id == cid then { ch with last_synced := some now } else ch)).find?
        (fun ch => ch.id == c) = chs.find? (fun ch => ch.id == c) := by
  induction chs with
  | nil => rfl
  | cons ch rest ih =>
    by_cases hcc : ch.id = c
    · have hne : ¬(ch.id = cid) := by rw [hcc]; exact h
      rw [List.map_cons, if_neg (by simp [hne]),
        List.find?_cons_of_pos _ (by simp [hcc]), List.find?_cons_of_pos _ (by simp [hcc])]
    · rw [List.map_cons]
      by_cases hc2 : ch.id = cid
      · rw [if_pos (by simp [hc2]), List.find?_cons_of_neg _ (by simp [hcc]),
          List.find?_cons_of_neg _ (by simp [hcc])]
        exact ih
      · rw [if_neg (by simp [hc2]), List.find?_cons_of_neg _ (by simp [hcc]),
          List.find?_cons_of_neg _ (by simp [hcc])]
        exact ih

theorem lastSyncedOf_setLastSynced_self (db : DB) (cid now : Nat)
    (h : ∃ ch ∈ db.channels, ch.id = cid) :
    lastSyncedOf (setLastSynced db cid now) cid = some now := by
  obtain ⟨ch', hf, hl⟩ := find_updated_self db.channels cid now h
  unfold lastSyncedOf setLastSynced
  rw [hf]
  exact hl

theorem lastSyncedOf_setLastSynced_other (db : DB) (cid now c : Nat) (h : c ≠ cid) :
    lastSyncedOf (setLastSynced db cid now) c = lastSyncedOf db c := by
  unfold lastSyncedOf setLastSynced
  rw [find_updated_other db.channels cid now c h]

theorem reconcileChannel_oc_cid (src : Source) (mr now : Nat) (db : DB) (cid : Nat) :
    (reconcileChannel src mr now db cid).2.1.cid = cid := by
  unfold reconcileChannel
  cases fetchWithRetry (src cid (watermark db.items cid)) 0 mr <;> rfl

theorem reconcileChannel_writes (src : Source) (mr now : Nat) (db : DB) (cid : Nat) :
    (reconcileChannel src mr now db cid).2.2.2 = [cid] ∨
      (reconcileChannel src mr now db cid).2.2.2 = [] := by
  unfold reconcileChannel
  cases fetchWithRetry (src cid (watermark db.items cid)) 0 mr
  · exact Or.inl rfl
  · exact Or.inr rfl
  · exact Or.inr rfl
  · exact Or.inr rfl

theorem reconcileChannel_lastSynced_other (src : Source) (mr now : Nat) (db : DB)
    (cid c : Nat) (h : c ≠ cid) :
    lastSyncedOf (reconcileChannel src mr now db cid).1 c = lastSyncedOf db c := by
  unfold reconcileChannel
  cases fetchWithRetry (src cid (watermark db.items cid)) 0 mr with
  | ok msgs =>
    show lastSyncedOf (setLastSynced (ingestPage db cid msgs) cid now) c = _
    rw [lastSyncedOf_setLastSynced_other _ cid now c h]
    unfold lastSyncedOf
    rw [ingestPage_channels]
  | authError => rfl
  | unreachable => rfl
  | rateLimited => rfl

theorem reconcileChannel_exists_id (src : Source) (mr now : Nat) (db : DB) (cid c : Nat)
    (h : ∃ ch ∈ db.channels, ch.id = c) :
    ∃ ch ∈ (reconcileChannel src mr now db cid).1.channels, ch.id = c := by
  unfold reconcileChannel
  cases fetchWithRetry (src cid (watermark db.items cid)) 0 mr with
  | ok msgs =>
    show ∃ ch ∈ (setLastSynced (ingestPage db cid msgs) cid now).channels, ch.id = c
    apply setLastSynced_exists_id
    rw [ingestPage_channels]
    exact h
  | authError => exact h
  | unreachable => exact h
  | rateLimited => exact h

theorem reconcile_lastSynced_not_mem (src : Source) (mr now : Nat) (db : DB)
    (scope : List Nat) (c : Nat) (h : c ∉ scope) :
    lastSyncedOf (reconcile src mr now db scope).db c = lastSyncedOf db c := by
  induction scope generalizing db with
  | nil => rfl
  | cons cid rest ih =>
    have hne : c ≠ cid := fun hc => h (hc ▸ List.mem_cons_self cid rest)
    have hnr : c ∉ rest := fun hc => h (List.mem_cons_of_mem cid hc)
    by_cases hab : (reconcileChannel src mr now db cid).2.2.1 = true
    · rw [reconcile_cons_abort src mr now db cid rest hab]
      exact reconcileChannel_lastSynced_other src mr now db cid c hne
    · have hf : (reconcileChannel src mr now db cid).2.2.1 = false := by
        cases hx : (reconcileChannel src mr now db cid).2.2.1
        · rfl
        · exact absurd hx hab
      rw [reconcile_cons src mr now db cid rest hf]
      show lastSyncedOf (reconcile src mr now (reconcileChannel src mr now db cid).1 rest).db c = _
      rw [ih _ hnr]
      exact reconcileChannel_lastSynced_other src mr now db cid c hne

theorem reconcile_syncWrites_subset (src : Source) (mr now : Nat) (db : DB)
    (scope : List Nat) (w : Nat) (h : w ∈ (reconcile src mr now db scope).syncWrites) :
    w ∈ scope := by
  induction scope generalizing db with
  | nil => cases h
  | cons cid rest ih =>
    by_cases hab : (reconcileChannel src mr now db cid).2.2.1 = true
    · rw [reconcile_cons_abort src mr now db cid rest hab] at h
      rcases reconcileChannel_writes src mr now db cid with hw | hw
      · rw [hw] at h
        rcases List.mem_singleton.mp h with rfl
        exact List.mem_cons_self w rest
      · rw [hw] at h
        cases h
    · have hf : (reconcileChannel src mr now db cid).2.2.1 = false := by
        cases hx : (reconcileChannel src mr now db cid).2.2.1
        · rfl
        · exact absurd hx hab
      rw [reconcile_cons src mr now db cid rest hf] at h
      simp only [List.mem_append] at h
      rcases h with h | h
      · rcases reconcileChannel_writes src mr now db cid with hw | hw
        · rw [hw] at h
          rcases List.mem_singleton.mp h with rfl
          exact List.mem_cons_self w rest
        · rw [hw] at h
          cases h
      · exact List.mem_cons_of_mem cid (ih _ h)

theorem reconcileChannel_ok (src : Source) (mr now : Nat) (db : DB) (cid : Nat)
    (msgs : List RawMsg)
    (h : fetchWithRetry (src cid (watermark db.items cid)) 0 mr = FetchOutcome.ok msgs) :
    reconcileChannel src mr now db cid =
      (setLastSynced (ingestPage db cid msgs) cid now,
        { cid := cid,
          inserted := (ingestPage db cid msgs).items.length - db.items.length,
          skipped := msgs.length - ((ingestPage db cid msgs).items.length - db.items.length),
          failed := false }, false, [cid]) := by
  unfold reconcileChannel
  rw [h]

theorem reconcile_outcomes_subset (src : Source) (mr now : Nat) (db : DB)
    (scope : List Nat) :
    ∀ oc ∈ (reconcile src mr now db scope).outcomes, oc.cid ∈ scope := by
  induction scope generalizing db with
  | nil => intro oc h; cases h
  | cons cid rest ih =>
    intro oc h
    by_cases hab : (reconcileChannel src mr now db cid).2.2.1 = true
    · rw [reconcile_cons_abort src mr now db cid rest hab] at h
      rcases List.mem_singleton.mp h with rfl
      rw [reconcileChannel_oc_cid]
      exact List.mem_cons_self cid rest
    · have hf : (reconcileChannel src mr now db cid).2.2.1 = false := by
        cases hx : (reconcileChannel src mr now db cid).2.2.1
        · rfl
        · exact absurd hx hab
      rw [reconcile_cons src mr now db cid rest hf] at h
      rcases List.mem_cons.mp h with rfl | h'
      · rw [reconcileChannel_oc_cid]
        exact List.mem_cons_self cid rest
      · exact List.mem_cons_of_mem cid (ih _ oc h')

theorem lastSyncedOf_ingestPage (db : DB) (cid : Nat) (ms : List RawMsg) (c : Nat) :
    lastSyncedOf (ingestPage db cid ms) c = lastSyncedOf db c := by
  unfold lastSyncedOf
  rw [ingestPage_channels]

theorem fetchWithRetry_all_rateLimited (i k : Nat) :
    fetchWithRetry (fun _ => FetchOutcome.rateLimited) i k = FetchOutcome.rateLimited := by
  induction k generalizing i with
  | zero => rfl
  | succ k ih => exact ih (i + 1)

theorem reconcile_last_synced_policy (src : Source) (mr now : Nat) (db : DB)
    (scope : List Nat) (hnd : scope.Nodup) :
    ∀ oc ∈ (reconcile src mr now db scope).outcomes,
      (oc.failed = false →
        (reconcile src mr now db scope).syncWrites.count oc.cid = 1 ∧
        ((∃ ch ∈ db.channels, ch.id = oc.cid) →
          lastSyncedOf (reconcile src mr now db scope).db oc.cid = some now)) ∧
      (oc.failed = true →
        (reconcile src mr now db scope).syncWrites.count oc.cid = 0 ∧
        oc.inserted = 0 ∧
        lastSyncedOf (reconcile src mr now db scope).db oc.cid = lastSyncedOf db oc.cid) := by
  induction scope generalizing db with
  | nil => intro oc h; cases h
  | cons cid rest ih =>
    obtain ⟨hcid, hndr⟩ := List.nodup_cons.mp hnd
    intro oc hoc
    cases hfr : fetchWithRetry (src cid (watermark db.items cid)) 0 mr with
    | authError =>
      have hrc := reconcileChannel_auth src mr now db cid hfr
      rw [reconcile_cons_abort src mr now db cid rest (by rw [hrc])] at hoc ⊢
      simp only [hrc] at hoc ⊢
      rcases List.mem_singleton.mp hoc with rfl
      exact ⟨fun hf => by simp at hf, fun _ => by refine ⟨?_, ?_, ?_⟩ <;> simp⟩
    | unreachable =>
      have hrc := reconcileChannel_unreachable src mr now db cid hfr
      rw [reconcile_cons src mr now db cid rest (by rw [hrc])] at hoc ⊢
      simp only [hrc] at hoc ⊢
      rcases List.mem_cons.mp hoc with rfl | hmem
      · refine ⟨fun hf => by simp at hf, fun _ => ⟨?_, rfl, ?_⟩⟩
        · rw [List.nil_append]
          exact List.count_eq_zero.mpr
            (fun hm => hcid (reconcile_syncWrites_subset src mr now db rest cid hm))
        · exact reconcile_lastSynced_not_mem src mr now db rest cid hcid
      · obtain ⟨ihf, iht⟩ := ih db hndr oc hmem
        refine ⟨fun hf => ?_, fun ht => ?_⟩
        · obtain ⟨hcnt, hlast⟩ := ihf hf
          exact ⟨by rw [List.nil_append]; exact hcnt, hlast⟩
        · obtain ⟨hcnt, hins, hlast⟩ := iht ht
          exact ⟨by rw [List.nil_append]; exact hcnt, hins, hlast⟩
    | rateLimited =>
      have hrc := reconcileChannel_rateLimited src mr now db cid hfr
      rw [reconcile_cons src mr now db cid rest (by rw [hrc])] at hoc ⊢
      simp only [hrc] at hoc ⊢
      rcases List.mem_cons.mp hoc with rfl | hmem
      · refine ⟨fun hf => by simp at hf, fun _ => ⟨?_, rfl, ?_⟩⟩
        · rw [List.nil_append]
          exact List.count_eq_zero.mpr
            (fun hm => hcid (reconcile_syncWrites_subset src mr now db rest cid hm))
        · exact reconcile_lastSynced_not_mem src mr now db rest cid hcid
      · obtain ⟨ihf, iht⟩ := ih db hndr oc hmem
        refine ⟨fun hf => ?_, fun ht => ?_⟩
        · obtain ⟨hcnt, hlast⟩ := ihf hf
          exact ⟨by rw [List.nil_append]; exact hcnt, hlast⟩
        · obtain ⟨hcnt, hins, hlast⟩ := iht ht
          exact ⟨by rw [List.nil_append]; exact hcnt, hins, hlast⟩
    | ok msgs =>
      have hrc := reconcileChannel_ok src mr now db cid msgs hfr
      rw [reconcile_cons src mr now db cid rest (by rw [hrc])] at hoc ⊢
      simp only [hrc] at hoc ⊢
      rcases List.mem_cons.mp hoc with rfl | hmem
      · refine ⟨fun _ => ⟨?_, fun hex => ?_⟩, fun ht => by simp at ht⟩
        · rw [List.singleton_append, List.count_cons_self]
          rw [List.count_eq_zero.mpr (fun hm => hcid
            (reconcile_syncWrites_subset src mr now
              (setLastSynced (ingestPage db cid msgs) cid now) rest cid hm))]
        · rw [reconcile_lastSynced_not_mem src mr now
            (setLastSynced (ingestPage db cid msgs) cid now) rest cid hcid]
          apply lastSyncedOf_setLastSynced_self
          rw [ingestPage_channels]
          exact hex
      · have hocrest := reconcile_outcomes_subset src mr now
          (setLastSynced (ingestPage db cid msgs) cid now) rest oc hmem
        have hne : oc.cid ≠ cid := fun he => hcid (he ▸ hocrest)
        obtain ⟨ihf, iht⟩ := ih (setLastSynced (ingestPage db cid msgs) cid now) hndr oc hmem
        refine ⟨fun hf => ?_, fun ht => ?_⟩
        · obtain ⟨hcnt, hlast⟩ := ihf hf
          refine ⟨?_, fun hex => ?_⟩
          · rw [List.singleton_append, List.count_cons_of_ne hne]
            exact hcnt
          · apply hlast
            apply setLastSynced_exists_id
            rw [ingestPage_channels]
            exact hex
        · obtain ⟨hcnt, hins, hlast⟩ := iht ht
          refine ⟨?_, hins, ?_⟩
          · rw [List.singleton_append, List.count_cons_of_ne hne]
            exact hcnt
          · rw [hlast, lastSyncedOf_setLastSynced_other _ cid now oc.cid hne,
              lastSyncedOf_ingestPage]

/-- C5: in a sweep over distinct channels, a channel whose fetch completed
(success or empty) has its last-successful-sync written exactly once and
set to the sweep timestamp; a channel whose every fetch attempt failed —
in particular one that is rate-limited on every attempt, which exhausts
the bounded retries — gets zero sync writes, zero inserted Items, and an
unchanged last_synced; a never-synchronized channel is created with a
null timestamp. -/
theorem last_synced_written_once_policy (src : Source) (mr now : Nat) (db : DB)
    (scope : List Nat) (hnd : scope.Nodup) :
    (∀ oc ∈ (reconcile src mr now db scope).outcomes,
      (oc.failed = false →
        (reconcile src mr now db scope).syncWrites.count oc.cid = 1 ∧
        ((∃ ch ∈ db.channels, ch.id = oc.cid) →
          lastSyncedOf (reconcile src mr now db scope).db oc.cid = some now)) ∧
      (oc.failed = true →
        (reconcile src mr now db scope).syncWrites.count oc.cid = 0 ∧
        oc.inserted = 0 ∧
        lastSyncedOf (reconcile src mr now db scope).db oc.cid = lastSyncedOf db oc.cid)) ∧
    (∀ i k, fetchWithRetry (fun _ => FetchOutcome.rateLimited) i k =
      FetchOutcome.rateLimited) ∧
    (∀ i n g, (mkChannel i n g).last_synced = none) :=
  ⟨reconcile_last_synced_policy src mr now db scope hnd,
    fun i k => fetchWithRetry_all_rateLimited i k,
    fun _ _ _ => rfl⟩

/-- Witness for C5: channel 1 succeeds (empty page) and gets its timestamp
written once; channel 2 is rate-limited on every attempt, keeps its old
timestamp and inserts nothing. -/
theorem last_synced_written_once_policy_witness :
    ((reconcile (fun cid _ _ => if cid = 1 then FetchOutcome.ok [] else FetchOutcome.rateLimited)
        3 42 { channels := [{ id := 1, name := "a", group_id := none, last_synced := none },
                            { id := 2, name := "b", group_id := none, last_synced := some 99 }],
               items := [], files := [] } [1, 2]).syncWrites.count 1 = 1 ∧
      lastSyncedOf (reconcile
          (fun cid _ _ => if cid = 1 then FetchOutcome.ok [] else FetchOutcome.rateLimited)
          3 42 { channels := [{ id := 1, name := "a", group_id := none, last_synced := none },
                              { id := 2, name := "b", group_id := none, last_synced := some 99 }],
                 items := [], files := [] } [1, 2]).db 1 = some 42) ∧
    ((reconcile (fun cid _ _ => if cid = 1 then FetchOutcome.ok [] else FetchOutcome.rateLimited)
        3 42 { channels := [{ id := 1, name := "a", group_id := none, last_synced := none },
                            { id := 2, name := "b", group_id := none, last_synced := some 99 }],
               items := [], files := [] } [1, 2]).syncWrites.count 2 = 0 ∧
      (ChannelOutcome.mk 2 0 0 true).inserted = 0 ∧
      lastSyncedOf (reconcile
          (fun cid _ _ => if cid = 1 then FetchOutcome.ok [] else FetchOutcome.rateLimited)
          3 42 { channels := [{ id := 1, name := "a", group_id := none, last_synced := none },
                              { id := 2, name := "b", group_id := none, last_synced := some 99 }],
                 items := [], files := [] } [1, 2]).db 2 =
        lastSyncedOf { channels := [{ id := 1, name := "a", group_id := none, last_synced := none },
                                    { id := 2, name := "b", group_id := none, last_synced := some 99 }],
                       items := [], files := [] } 2) ∧
    fetchWithRetry (fun _ => FetchOutcome.rateLimited) 0 3 = FetchOutcome.rateLimited ∧
    (mkChannel 5 "fresh" none).last_synced = none :=
  ⟨((last_synced_written_once_policy
        (fun cid _ _ => if cid = 1 then FetchOutcome.ok [] else FetchOutcome.rateLimited)
        3 42 { channels := [{ id := 1, name := "a", group_id := none, last_synced := none },
                            { id := 2, name := "b", group_id := none, last_synced := some 99 }],
               items := [], files := [] } [1, 2] (by decide)).1
      (ChannelOutcome.mk 1 0 0 false) (by decide)).1 rfl
      |>.imp id (fun h => h (by decide)),
    ((last_synced_written_once_policy
        (fun cid _ _ => if cid = 1 then FetchOutcome.ok [] else FetchOutcome.rateLimited)
        3 42 { channels := [{ id := 1, name := "a", group_id := none, last_synced := none },
                            { id := 2, name := "b", group_id := none, last_synced := some 99 }],
               items := [], files := [] } [1, 2] (by decide)).1
      (ChannelOutcome.mk 2 0 0 true) (by decide)).2 rfl,
    (last_synced_written_once_policy
        (fun cid _ _ => if cid = 1 then FetchOutcome.ok [] else FetchOutcome.rateLimited)
        3 42 { channels := [{ id := 1, name := "a", group_id := none, last_synced := none },
                            { id := 2, name := "b", group_id := none, last_synced := some 99 }],
               items := [], files := [] } [1, 2] (by decide)).2.1 0 3,
    (last_synced_written_once_policy
        (fun cid _ _ => if cid = 1 then FetchOutcome.ok [] else FetchOutcome.rateLimited)
        3 42 { channels := [{ id := 1, name := "a", group_id := none, last_synced := none },
                            { id := 2, name := "b", group_id := none, last_synced := some 99 }],
               items := [], files := [] } [1, 2] (by decide)).2.2 5 "fresh" none⟩

/-! ### Retention: keep-latest pruning and deleteItemsOlderThan -/

theorem deleteItemsOlderThan_refs (db : DB) (cutoff : Nat) (r : String) :
    r ∈ (deleteItemsOlderThan db cutoff).2 ↔
      ∃ it ∈ db.items, it ∉ (deleteItemsOlderThan db cutoff).1.items ∧
        it.attachment_ref = some r := by
  unfold deleteItemsOlderThan
  simp only [List.mem_filterMap, List.mem_filter]
  constructor
  · rintro ⟨it, ⟨hmem, hts⟩, href⟩
    refine ⟨it, hmem, ?_, href⟩
    intro hin
    rw [hts] at hin
    simp at hin
  · rintro ⟨it, hmem, hnot, href⟩
    refine ⟨it, ⟨hmem, ?_⟩, href⟩
    simp only [decide_eq_true_eq]
    by_contra hge
    exact hnot ⟨hmem, by simp [hge]⟩

/-- C6: pruning a channel holding Items at external ids [1,2,3,4] (origin
timestamps increasing) with policy "keep latest 2 per channel" leaves
exactly the Items with ids 3 and 4 (their attachment files surviving,
files of 1 and 2 deleted); and `deleteItemsOlderThan` returns exactly the
attachment references of the Items it removed, so the caller can delete
the corresponding files. -/
theorem prune_keeps_latest_and_returns_removed_refs :
    ((prune dbRetention 2).items =
        [mkItem 3 1 3 30 (some "r3"), mkItem 4 1 4 40 (some "r4")] ∧
      (prune dbRetention 2).files = ["r3", "r4"]) ∧
    ∀ (db : DB) (cutoff : Nat) (r : String),
      r ∈ (deleteItemsOlderThan db cutoff).2 ↔
        ∃ it ∈ db.items, it ∉ (deleteItemsOlderThan db cutoff).1.items ∧
          it.attachment_ref = some r :=
  ⟨⟨by decide, by decide⟩, fun db cutoff r => deleteItemsOlderThan_refs db cutoff r⟩

/-- Witness for C6: the reference of the removed Item 1 is among the
references returned by `deleteItemsOlderThan` at cutoff 25. -/
theorem prune_keeps_latest_and_returns_removed_refs_witness :
    "r1" ∈ (deleteItemsOlderThan dbRetention 25).2 :=
  (prune_keeps_latest_and_returns_removed_refs.2 dbRetention 25 "r1").mpr
    ⟨mkItem 1 1 1 10 (some "r1"), by decide, by decide, rfl⟩

/-! ### Row-then-file ordering inside prune -/

theorem noDangling_iff (db : DB) :
    noDangling db = true ↔
      ∀ it ∈ db.items, ∀ r, it.attachment_ref = some r → db.files.contains r = true := by
  unfold noDangling
  rw [List.all_eq_true]
  constructor
  · intro h it hm r hr
    have := h it hm
    rw [hr] at this
    exact this
  · intro h it hm
    cases hr : it.attachment_ref with
    | none => rfl
    | some r => exact h it hm r hr

theorem noDangling_filter (db : DB) (p : Item → Bool) (h : noDangling db = true) :
    noDangling { db with items := db.items.filter p } = true := by
  rw [noDangling_iff] at h ⊢
  intro it hm r hr
  exact h it (List.mem_filter.mp hm).1 r hr

theorem noDangling_delRow (db : DB) (it : Item) (h : noDangling db = true) :
    noDangling (applyOp db (PruneOp.delRow it)) = true :=
  noDangling_filter db _ h

theorem noDangling_delFile (db : DB) (r : String)
    (hno : ∀ it ∈ db.items, it.attachment_ref ≠ some r) (h : noDangling db = true) :
    noDangling (applyOp db (PruneOp.delFile r)) = true := by
  rw [noDangling_iff] at h ⊢
  intro it hm s hs
  have hin : it ∈ db.items := hm
  have hsr : s ≠ r := fun he => hno it hin (he ▸ hs)
  have hcont := h it hin s hs
  have hmem : s ∈ db.files := by
    simp only [List.contains, List.elem_eq_mem, decide_eq_true_eq] at hcont
    exact hcont
  show (db.files.filter (fun f => !(f == r))).contains s = true
  simp only [List.contains, List.elem_eq_mem, decide_eq_true_eq]
  exact List.mem_filter.mpr ⟨hmem, by simp [hsr]⟩

theorem statesAlong_mem_split (db : DB) (xs ys : List PruneOp) (st : DB)
    (h : st ∈ statesAlong db (xs ++ ys)) :
    st ∈ statesAlong db xs ∨ st ∈ statesAlong (runOps db xs) ys := by
  induction xs generalizing db with
  | nil => exact Or.inr h
  | cons op rest ih =>
    rw [List.cons_append] at h
    rcases List.mem_cons.mp h with rfl | h'
    · exact Or.inl (List.mem_cons_self _ _)
    · rcases ih (applyOp db op) h' with hl | hr
      · exact Or.inl (List.mem_cons_of_mem _ hl)
      · exact Or.inr hr

theorem noDangling_delRows_states (db : DB) (ds : List Item) (h : noDangling db = true) :
    ∀ st ∈ statesAlong db (ds.map PruneOp.delRow), noDangling st = true := by
  induction ds generalizing db with
  | nil =>
    intro st hst
    rcases List.mem_singleton.mp hst with rfl
    exact h
  | cons d rest ih =>
    intro st hst
    rcases List.mem_cons.mp hst with rfl | h'
    · exact h
    · exact ih (applyOp db (PruneOp.delRow d)) (noDangling_delRow db d h) st h'

theorem noDangling_delFiles_states (db : DB) (rs : List String)
    (hno : ∀ r ∈ rs, ∀ it ∈ db.items, it.attachment_ref ≠ some r)
    (h : noDangling db = true) :
    ∀ st ∈ statesAlong db (rs.map PruneOp.delFile), noDangling st = true := by
  induction rs generalizing db with
  | nil =>
    intro st hst
    rcases List.mem_singleton.mp hst with rfl
    exact h
  | cons r rest ih =>
    intro st hst
    rcases List.mem_cons.mp hst with rfl | h'
    · exact h
    · refine ih (applyOp db (PruneOp.delFile r)) ?_
        (noDangling_delFile db r (hno r (List.mem_cons_self r rest)) h) st h'
      intro r' hr' it hit
      exact hno r' (List.mem_cons_of_mem r hr') it hit

theorem filter_not_contains_cons (l : List Item) (d : Item) (ds : List Item) :
    (l.filter (fun j => !(j == d))).filter (fun j => !(ds.contains j)) =
      l.filter (fun j => !((d :: ds).contains j)) := by
  rw [List.filter_filter]
  apply List.filter_congr
  intro j _
  rw [List.contains_cons]
  cases hj : j == d <;> cases hc : ds.contains j <;> simp [hj, hc]

theorem runOps_delRows (db : DB) (ds : List Item) :
    runOps db (ds.map PruneOp.delRow) =
      { db with items := db.items.filter (fun j => !(ds.contains j)) } := by
  induction ds generalizing db with
  | nil =>
    show db = _
    have h : db.items.filter (fun j => !(([] : List Item).contains j)) = db.items := by
      simp
    rw [h]
  | cons d rest ih =>
    show runOps (applyOp db (PruneOp.delRow d)) (rest.map PruneOp.delRow) = _
    rw [ih]
    simp only [applyOp]
    congr 1
    exact filter_not_contains_cons db.items d rest

theorem distinctRefs_unique (items : List Item) (h : distinctRefs items = true)
    (i j : Item) (hi : i ∈ items) (hj : j ∈ items) (r : String)
    (hir : i.attachment_ref = some r) (hjr : j.attachment_ref = some r) : i = j := by
  induction items with
  | nil => cases hi
  | cons it rest ih =>
    simp only [distinctRefs, Bool.and_eq_true, List.all_eq_true] at h
    rcases List.mem_cons.mp hi with rfl | hi'
    · rcases List.mem_cons.mp hj with rfl | hj'
      · rfl
      · exfalso
        have := h.1 j hj'
        rw [refClash, hir, hjr] at this
        simp at this
    · rcases List.mem_cons.mp hj with rfl | hj'
      · exfalso
        have := h.1 i hi'
        rw [refClash, hjr, hir] at this
        simp at this
      · exact ih h.2 hi' hj'

/-- C7: during `prune` an Attachment Store object is deleted only after
the Item row referencing it is removed: provided no two distinct Items
share an attachment reference (the deterministic-naming invariant), every
intermediate state of the prune micro-step sequence — all row deletions
first, file deletions after — has no persisted Item whose attachment
reference points to an already-deleted file. -/
theorem prune_never_dangles (db : DB) (n : Nat)
    (h1 : noDangling db = true) (h2 : distinctRefs db.items = true) :
    ∀ st ∈ statesAlong db (pruneOps db n), noDangling st = true := by
  intro st hst
  rw [pruneOps] at hst
  rcases statesAlong_mem_split db _ _ st hst with hph1 | hph2
  · exact noDangling_delRows_states db (pruneSelect db.items n) h1 st hph1
  · rw [runOps_delRows] at hph2
    refine noDangling_delFiles_states _ _ ?_ (noDangling_filter db _ h1) st hph2
    intro r hr it hit hitr
    obtain ⟨d, hd, hdr⟩ := List.mem_filterMap.mp hr
    have hdm : d ∈ db.items := (List.mem_filter.mp hd).1
    have hitm : it ∈ db.items := (List.mem_filter.mp hit).1
    have hnotsel : ¬(it ∈ pruneSelect db.items n) := by
      have hb := (List.mem_filter.mp hit).2
      intro hmem
      rw [Bool.not_eq_true'] at hb
      have hcon : (pruneSelect db.items n).contains it = true := by
        simp only [List.contains, List.elem_eq_mem, decide_eq_true_eq]
        exact hmem
      rw [hcon] at hb
      cases hb
    have heq : it = d := distinctRefs_unique db.items h2 it d hitm hdm r hitr hdr
    rw [heq] at hnotsel
    exact hnotsel hd

/-- Witness for C7: on the retention fixture, the state reached after all
three row deletions and the first file deletion still has no dangling
reference. -/
theorem prune_never_dangles_witness :
    noDangling (runOps dbRetention (List.take 4 (pruneOps dbRetention 1))) = true :=
  prune_never_dangles dbRetention 1 (by decide) (by decide)
    (runOps dbRetention (List.take 4 (pruneOps dbRetention 1))) (by decide)

/-! ### The read surface: sorted by origin timestamp descending -/

theorem insertDesc_perm (it : Item) (l : List Item) : (insertDesc it l).Perm (it :: l) := by
  induction l with
  | nil => exact List.Perm.refl _
  | cons j rest ih =>
    by_cases hc : tsGE it j = true
    · rw [insertDesc, if_pos hc]
    · rw [insertDesc, if_neg hc]
      exact (List.Perm.cons j ih).trans (List.Perm.swap it j rest)

theorem sortDesc_perm (l : List Item) : (sortDesc l).Perm l := by
  induction l with
  | nil => exact List.Perm.refl _
  | cons it rest ih =>
    exact (insertDesc_perm it (sortDesc rest)).trans (List.Perm.cons it ih)

theorem pairwise_insertDesc (it : Item) (l : List Item)
    (h : l.Pairwise (fun a b => b.origin_timestamp ≤ a.origin_timestamp)) :
    (insertDesc it l).Pairwise (fun a b => b.origin_timestamp ≤ a.origin_timestamp) := by
  induction l with
  | nil => simp [insertDesc]
  | cons j rest ih =>
    rw [List.pairwise_cons] at h
    by_cases hc : tsGE it j = true
    · rw [insertDesc, if_pos hc]
      rw [List.pairwise_cons]
      refine ⟨?_, List.pairwise_cons.mpr h⟩
      intro b hb
      have hj : j.origin_timestamp ≤ it.origin_timestamp := by
        simpa [tsGE] using hc
      rcases List.mem_cons.mp hb with rfl | hb'
      · exact hj
      · exact le_trans (h.1 b hb') hj
    · rw [insertDesc, if_neg hc]
      rw [List.pairwise_cons]
      refine ⟨?_, ih h.2⟩
      intro b hb
      have hmem : b ∈ it :: rest := (insertDesc_perm it rest).mem_iff.mp hb
      have hj : ¬(j.origin_timestamp ≤ it.origin_timestamp) := by
        simpa [tsGE] using hc
      rcases List.mem_cons.mp hmem with rfl | hb'
      · omega
      · exact h.1 b hb'

theorem sortDesc_sorted (l : List Item) :
    (sortDesc l).Pairwise (fun a b => b.origin_timestamp ≤ a.origin_timestamp) := by
  induction l with
  | nil => exact List.Pairwise.nil
  | cons it rest ih => exact pairwise_insertDesc it (sortDesc rest) ih

theorem sorted_desc_unique (l1 : List Item) :
    ∀ l2, l1.Perm l2 →
      l1.Pairwise (fun a b => b.origin_timestamp ≤ a.origin_timestamp) →
      l2.Pairwise (fun a b => b.origin_timestamp ≤ a.origin_timestamp) →
      l1.Pairwise (fun a b => a.origin_timestamp ≠ b.origin_timestamp) →
      l1 = l2 := by
  induction l1 with
  | nil =>
    intro l2 hp _ _ _
    exact hp.nil_eq
  | cons a as ih =>
    intro l2 hp h1 h2 hd
    cases l2 with
    | nil => exact absurd hp.symm.nil_eq (by simp)
    | cons b bs =>
      have hab : a = b := by
        by_contra hne
        have hamem : a ∈ b :: bs := hp.mem_iff.mp (List.mem_cons_self a as)
        have hbmem : b ∈ a :: as := hp.mem_iff.mpr (List.mem_cons_self b bs)
        have ha' : a ∈ bs := by
          rcases List.mem_cons.mp hamem with h | h
          · exact absurd h hne
          · exact h
        have hb' : b ∈ as := by
          rcases List.mem_cons.mp hbmem with h | h
          · exact absurd h.symm hne
          · exact h
        have hle1 : b.origin_timestamp ≤ a.origin_timestamp :=
          (List.pairwise_cons.mp h1).1 b hb'
        have hle2 : a.origin_timestamp ≤ b.origin_timestamp :=
          (List.pairwise_cons.mp h2).1 a ha'
        have : a.origin_timestamp ≠ b.origin_timestamp :=
          (List.pairwise_cons.mp hd).1 b hb'
        omega
      subst hab
      have htl := hp.cons_inv
      rw [ih bs htl (List.pairwise_cons.mp h1).2 (List.pairwise_cons.mp h2).2
        (List.pairwise_cons.mp hd).2]

theorem sortDesc_eq_of_perm (l l' : List Item) (hperm : l'.Perm l)
    (hd : l.Pairwise (fun a b => a.origin_timestamp ≠ b.origin_timestamp)) :
    sortDesc l' = sortDesc l := by
  have hq : (sortDesc l').Perm (sortDesc l) :=
    (sortDesc_perm l').trans (hperm.trans (sortDesc_perm l).symm)
  have hd' : (sortDesc l').Pairwise (fun a b => a.origin_timestamp ≠ b.origin_timestamp) := by
    have hperm2 : (sortDesc l').Perm l := (sortDesc_perm l').trans hperm
    exact (hperm2.pairwise_iff (fun h he => h he.symm)).mpr hd
  exact sorted_desc_unique (sortDesc l') (sortDesc l) hq (sortDesc_sorted l')
    (sortDesc_sorted l) hd'

theorem channelGroup_congr (db db' : DB) (c : Nat) (h : db'.channels = db.channels) :
    channelGroup db' c = channelGroup db c := by
  unfold channelGroup
  rw [h]

/-- C8: the default item listing is sorted by origin timestamp descending,
computed at read time: for every persisted state and filter the listing is
descending, and two states holding the same Items in different insertion
orders (timestamps pairwise distinct) produce identical listings. -/
theorem listItems_sorted_read_time (db db' : DB) (gid lim : Option Nat)
    (hch : db'.channels = db.channels) (hperm : db'.items.Perm db.items)
    (hd : db.items.Pairwise (fun a b => a.origin_timestamp ≠ b.origin_timestamp)) :
    (listItems db gid lim).Pairwise (fun a b => b.origin_timestamp ≤ a.origin_timestamp) ∧
      listItems db' gid lim = listItems db gid lim := by
  constructor
  · cases gid with
    | none =>
      cases lim with
      | none => exact sortDesc_sorted db.items
      | some k => exact (sortDesc_sorted db.items).sublist (List.take_sublist k _)
    | some g =>
      cases lim with
      | none => exact sortDesc_sorted _
      | some k => exact (sortDesc_sorted _).sublist (List.take_sublist k _)
  · cases gid with
    | none =>
      have he : sortDesc db'.items = sortDesc db.items := sortDesc_eq_of_perm _ _ hperm hd
      cases lim with
      | none => exact he
      | some k =>
        show List.take k (sortDesc db'.items) = List.take k (sortDesc db.items)
        rw [he]
    | some g =>
      have hpred : (fun it : Item => channelGroup db' it.channel_id == some g) =
          (fun it : Item => channelGroup db it.channel_id == some g) := by
        funext it
        rw [channelGroup_congr db db' it.channel_id hch]
      have hpf : (db'.items.filter (fun it => channelGroup db' it.channel_id == some g)).Perm
          (db.items.filter (fun it => channelGroup db it.channel_id == some g)) := by
        rw [hpred]
        exact hperm.filter _
      have hdf : (db.items.filter (fun it => channelGroup db it.channel_id == some g)).Pairwise
          (fun a b => a.origin_timestamp ≠ b.origin_timestamp) :=
        hd.sublist (List.filter_sublist _)
      have he := sortDesc_eq_of_perm _ _ hpf hdf
      cases lim with
      | none => exact he
      | some k =>
        show List.take k (sortDesc (db'.items.filter
            (fun it => channelGroup db' it.channel_id == some g))) =
          List.take k (sortDesc (db.items.filter
            (fun it => channelGroup db it.channel_id == some g)))
        rw [he]

/-- Witness for C8: two states holding the same three Items in different
orders produce the same listing, and that listing is descending. -/
theorem listItems_sorted_read_time_witness :
    (listItems { channels := [], items := [mkItem 1 1 1 30 none, mkItem 2 1 2 10 none,
        mkItem 3 1 3 20 none], files := [] } none none).Pairwise
      (fun a b => b.origin_timestamp ≤ a.origin_timestamp) ∧
    listItems { channels := [], items := [mkItem 3 1 3 20 none, mkItem 1 1 1 30 none,
        mkItem 2 1 2 10 none], files := [] } none none =
      listItems { channels := [], items := [mkItem 1 1 1 30 none, mkItem 2 1 2 10 none,
          mkItem 3 1 3 20 none], files := [] } none none :=
  listItems_sorted_read_time
    { channels := [], items := [mkItem 1 1 1 30 none, mkItem 2 1 2 10 none,
        mkItem 3 1 3 20 none], files := [] }
    { channels := [], items := [mkItem 3 1 3 20 none, mkItem 1 1 1 30 none,
        mkItem 2 1 2 10 none], files := [] }
    none none rfl (by decide) (by decide)

/-! ### Scheduler: no two reconciliation passes in flight -/

theorem schedStep_invariant (s : Sched) (e : SchedEvent)
    (h : s.active = (if s.running then 1 else 0)) :
    (schedStep s e).active = (if (schedStep s e).running then 1 else 0) := by
  cases e <;> simp only [schedStep] <;> split_ifs <;> simp_all

theorem schedRun_aux (evs : List SchedEvent) (s : Sched)
    (h : s.active = (if s.running then 1 else 0)) :
    (evs.foldl schedStep s).active = (if (evs.foldl schedStep s).running then 1 else 0) := by
  induction evs generalizing s with
  | nil => exact h
  | cons e rest ih => exact ih _ (schedStep_invariant s e h)

/-- C9: at no reachable scheduler state are two reconciliation passes in
flight — after any event sequence at most one sweep is active — and a
sweep request (tick or manual trigger) arriving while a sweep is running
is coalesced/queued: it leaves the number of active passes unchanged
rather than starting a second one. -/
theorem no_concurrent_sweeps :
    (∀ evs : List SchedEvent, (schedRun evs).active ≤ 1) ∧
    (∀ (q st : Bool) (a : Nat),
      (schedStep { running := true, queued := q, stopped := st, active := a }
          SchedEvent.tick).active = a ∧
      (schedStep { running := true, queued := q, stopped := st, active := a }
          SchedEvent.tick).running = true ∧
      (schedStep { running := true, queued := q, stopped := st, active := a }
          SchedEvent.trigger).active = a ∧
      (schedStep { running := true, queued := q, stopped := st, active := a }
          SchedEvent.trigger).running = true) := by
  constructor
  · intro evs
    have h := schedRun_aux evs schedInit rfl
    rw [schedRun]
    rw [h]
    split_ifs <;> omega
  · intro q st a
    cases st <;> simp [schedStep]

/-! ### Management frontend: empty-name submissions are no-ops -/

/-- C10: submitting the add-channel or add-group form with an empty name
is a no-op — no create request is issued and the lists are unchanged — and
a create request is issued exactly for a non-empty name. -/
theorem add_form_empty_name_noop :
    (∀ st : MgmtState, handleAddChannel "" st = (st, []) ∧ handleAddGroup "" st = (st, [])) ∧
    (∀ (s : String) (st : MgmtState), s ≠ "" →
      (handleAddChannel s st).2 = [{ endpoint := "/channels", name := s }] ∧
      (handleAddGroup s st).2 = [{ endpoint := "/groups", name := s }]) := by
  constructor
  · intro st
    constructor <;> simp [handleAddChannel, handleAddGroup]
  · intro s st hs
    constructor <;> simp [handleAddChannel, handleAddGroup, hs]

/-- Witness for C10: the empty name issues nothing and changes nothing; a
non-empty name issues exactly one create request. -/
theorem add_form_empty_name_noop_witness :
    handleAddChannel "" { channelNames := [], groupNames := [] } =
      ({ channelNames := [], groupNames := [] }, []) ∧
    (handleAddChannel "news" { channelNames := [], groupNames := [] }).2 =
      [{ endpoint := "/channels", name := "news" }] :=
  ⟨(add_form_empty_name_noop.1 { channelNames := [], groupNames := [] }).1,
    (add_form_empty_name_noop.2 "news" { channelNames := [], groupNames := [] }
      (by decide)).1⟩

end NewsReader
